import Mathlib

/-!
Shallow embedding of the RemoteUpdateTesting self-update client.

The repository has two implementations of the synchronization engine:
`src/updater.py` (the current one, with `check_updates_available` and
`update_files_from_github`) and `src/Updater.py` (an older
`update_files_from_github`).  Both are transcribed below, statement by
statement, against an explicit environment oracle:

* the network (`requests.get`) is a deterministic map from URL to either a
  raised transport exception or an `HttpResponse` carrying the status code,
  the result of `.json()` and the raw `.content` bytes;
* the filesystem is an association list from paths to file data, with
  per-path oracles for `os.makedirs` and `open(...).write` failures; writes
  are modelled atomically (a failed write raises and leaves the slot
  unchanged);
* `json.load` on bytes written by the file synchronizer is a parsing oracle
  supplied by the environment; `json.dump` followed by `json.load`
  round-trips.

A ghost `fetchLog` field records every URL handed to `requests.get`,
so that "no per-file processing is performed" is statable.  Python
exceptions are explicit `Except` values; the top-level `try/except` of each
entry point is the final `match` that converts an exception into the
`failed` result, exactly as in the source.
-/

namespace RemoteUpdate

/-- The slice of a JSON object the engine actually reads: the
`download_url` key of a contents-API response, and the `version` / `files`
keys of a manifest.  A missing key is `none` (dictionary access raises
`KeyError`, `.get` takes the default). -/
structure JObj where
  download_url : Option String := none
  version : Option String := none
  files : Option (List String) := none
deriving DecidableEq, Repr

/-- Data stored at a path of the local filesystem: raw bytes written by the
file synchronizer, or a JSON document written by `json.dump`. -/
inductive FileData where
  | raw (bs : List Nat)
  | jsonData (j : JObj)
deriving DecidableEq, Repr

instance {α β : Type} [DecidableEq α] [DecidableEq β] : DecidableEq (Except α β) :=
  fun a b =>
  match a, b with
  | .error e, .error f => if h : e = f then .isTrue (by rw [h]) else .isFalse (by simp [h])
  | .ok x, .ok y => if h : x = y then .isTrue (by rw [h]) else .isFalse (by simp [h])
  | .error _, .ok _ => .isFalse (by simp)
  | .ok _, .error _ => .isFalse (by simp)

/-- A `requests` response: status code, the outcome of calling `.json()`
on it (malformed bodies raise), and the raw `.content` bytes. -/
structure HttpResponse where
  status_code : Nat
  jsonResult : Except String JObj
  content : List Nat
deriving DecidableEq, Repr

/-- The environment oracle.  `net` is `requests.get` (an `.error` is a
raised transport exception); `makedirs`, `writeBytes` and `writeJson` are
the per-path outcomes of `os.makedirs`, `open(p,'wb').write` and
`open(p,'w')` + `json.dump`; `json_loads` parses raw bytes read back by
`json.load`. -/
structure Env where
  net : String → Except String HttpResponse
  makedirs : String → Except String Unit
  writeBytes : String → Except String Unit
  writeJson : String → Except String Unit
  json_loads : List Nat → Except String JObj

/-- Local filesystem state: an association list (latest write first) from
paths to file data, plus a ghost log of every URL fetched. -/
structure FsState where
  files : List (String × FileData) := []
  fetchLog : List String := []
deriving DecidableEq, Repr

/-- The dictionary returned by `update_files_from_github`. -/
structure SyncResult where
  status : String
  updated_files : List String
  errors : List String
deriving DecidableEq, Repr

/-- The dictionary returned by `check_updates_available`. -/
structure AvailResult where
  update_available : Bool
  remote_version : Option String
  errors : List String
deriving DecidableEq, Repr

/-- `os.path.join(a, b)` for a relative `b`. -/
def joinPath (a b : String) : String := a ++ "/" ++ b

/-- `os.path.dirname`: everything before the last path separator. -/
def dirname (p : String) : String :=
  String.intercalate "/" ((p.splitOn "/").dropLast)

/-- Read the file at `p`, latest write first. -/
def lookupFile (st : FsState) (p : String) : Option FileData :=
  (st.files.find? (fun kv => kv.fst = p)).map (·.snd)

/-- Overwrite the file at `p`. -/
def writeFile (st : FsState) (p : String) (d : FileData) : FsState :=
  { st with files := (p, d) :: st.files }

/-- Ghost: record a URL handed to `requests.get`. -/
def logFetch (st : FsState) (url : String) : FsState :=
  { st with fetchLog := st.fetchLog ++ [url] }

/-- `str(KeyError(k))`, up to formatting. -/
def keyErrorMsg (k : String) : String := "KeyError: " ++ k

/-- `str(HTTPError)` produced by `response.raise_for_status()`, up to
formatting: it names the status code and the URL. -/
def httpErrorMsg (code : Nat) (url : String) : String :=
  toString code ++ " Error for url: " ++ url

/-- `raise_for_status` raises exactly for 4xx and 5xx codes. -/
def isHttpError (code : Nat) : Bool := 400 ≤ code && code < 600

def forbiddenMsg : String :=
  "Access forbidden. Check repository permissions or provide a valid GitHub token."

/-- The result built by the top-level `except` clause of
`update_files_from_github`. -/
def mkFailed (msg : String) : SyncResult :=
  { status := "failed", updated_files := [], errors := [msg] }

namespace updater

/-- Lines 100-136 of `src/updater.py`: resolve the remote manifest through
the two-hop fetch.  Returns the parsed manifest content on success, or the
early `SyncResult` (a direct `return` or the top-level `except` handler for
a raised exception) on failure, together with the ghost list of URLs
fetched. -/
def fetchManifestPhase (env : Env) (murl : String) :
    Except SyncResult JObj × List String :=
  match env.net murl with
  | .error e => (.error (mkFailed ("Update failed: " ++ e)), [murl])
  | .ok response =>
    if response.status_code = 404 then
      (.error { status := "failed", updated_files := [],
                errors := ["Manifest file not found at " ++ murl] }, [murl])
    else if response.status_code = 403 then
      (.error { status := "failed", updated_files := [], errors := [forbiddenMsg] }, [murl])
    else if isHttpError response.status_code then
      (.error (mkFailed ("Update failed: " ++ httpErrorMsg response.status_code murl)), [murl])
    else
      match response.jsonResult with
      | .error e => (.error (mkFailed ("Update failed: " ++ e)), [murl])
      | .ok remote_manifest_data =>
        match remote_manifest_data.download_url with
        | none => (.error (mkFailed ("Update failed: " ++ keyErrorMsg "download_url")), [murl])
        | some durl =>
          match env.net durl with
          | .error e => (.error (mkFailed ("Update failed: " ++ e)), [murl, durl])
          | .ok manifest_response =>
            if manifest_response.status_code ≠ 200 then
              (.error { status := "failed", updated_files := [],
                        errors := ["Failed to fetch manifest content from " ++ durl ++
                                   " (HTTP " ++ toString manifest_response.status_code ++ ")"] },
               [murl, durl])
            else
              match manifest_response.jsonResult with
              | .error e => (.error (mkFailed ("Update failed: " ++ e)), [murl, durl])
              | .ok remote_manifest_content => (.ok remote_manifest_content, [murl, durl])

/-- Lines 138-142 of `src/updater.py`: load the local manifest, defaulting
to `{'version': '0.0.0', 'files': []}` when the file does not exist; a
present but unparsable file raises (`.error`). -/
def load_local_manifest (env : Env) (st : FsState) (p : String) : Except String JObj :=
  match lookupFile st p with
  | none => .ok { download_url := none, version := some "0.0.0", files := some [] }
  | some (.jsonData j) => .ok j
  | some (.raw bs) => env.json_loads bs

/-- Lines 59-63 of `src/updater.py`: the check-only variant defaults to
`{'version': '0.0.0'}` (no `files` key). -/
def load_local_manifest_check (env : Env) (st : FsState) (p : String) : Except String JObj :=
  match lookupFile st p with
  | none => .ok { download_url := none, version := some "0.0.0", files := none }
  | some (.jsonData j) => .ok j
  | some (.raw bs) => env.json_loads bs

/-- Lines 153-177 of `src/updater.py`: one iteration of the per-file loop.
Returns `.ok path` when the file was fetched and written (the path is then
appended to `updated_files`) or `.error msg` (the message is appended to
`errors`), together with the updated state.  The second hop deliberately
mirrors the source: `requests.get(download_url).content` is used with no
status check. -/
def processFileStep (env : Env) (repo_url branch local_dir : String)
    (st : FsState) (file_path : String) : Except String String × FsState :=
  let file_url := repo_url ++ "/contents/" ++ file_path ++ "?ref=" ++ branch
  let st := logFetch st file_url
  match env.net file_url with
  | .error e => (.error ("Failed to update " ++ file_path ++ ": " ++ e), st)
  | .ok file_response =>
    if file_response.status_code ≠ 200 then
      (.error ("Failed to fetch file " ++ file_path ++ " from " ++ file_url ++
               " (HTTP " ++ toString file_response.status_code ++ ")"), st)
    else
      match file_response.jsonResult with
      | .error e => (.error ("Failed to update " ++ file_path ++ ": " ++ e), st)
      | .ok file_data =>
        match file_data.download_url with
        | none => (.error ("Failed to update " ++ file_path ++ ": " ++
                           keyErrorMsg "download_url"), st)
        | some durl =>
          let st := logFetch st durl
          match env.net durl with
          | .error e => (.error ("Failed to update " ++ file_path ++ ": " ++ e), st)
          | .ok dl =>
            let local_file_path := joinPath local_dir file_path
            match env.makedirs (dirname local_file_path) with
            | .error e => (.error ("Failed to update " ++ file_path ++ ": " ++ e), st)
            | .ok _ =>
              match env.writeBytes local_file_path with
              | .error e => (.error ("Failed to update " ++ file_path ++ ": " ++ e), st)
              | .ok _ => (.ok file_path, writeFile st local_file_path (.raw dl.content))

/-- The success-or-failure outcome of one loop iteration; it does not
depend on the filesystem state (the step only reads the environment). -/
def stepOutcome (env : Env) (repo_url branch local_dir file_path : String) :
    Except String String :=
  (processFileStep env repo_url branch local_dir {} file_path).fst

/-- Lines 152-177 of `src/updater.py`: the whole per-file loop, returning
`(updated_files, errors, final state)` with both lists in manifest order. -/
def processFiles (env : Env) (repo_url branch local_dir : String)
    (st : FsState) : List String → List String × List String × FsState
  | [] => ([], [], st)
  | p :: rest =>
    match processFileStep env repo_url branch local_dir st p with
    | (.ok path, st1) =>
      let (ups, errs, st2) := processFiles env repo_url branch local_dir st1 rest
      (path :: ups, errs, st2)
    | (.error msg, st1) =>
      let (ups, errs, st2) := processFiles env repo_url branch local_dir st1 rest
      (ups, msg :: errs, st2)

/-- Instrumented variant of the loop keeping, for each error, the file path
the error was recorded for (the provenance the plain string list erases). -/
def processFilesTagged (env : Env) (repo_url branch local_dir : String)
    (st : FsState) : List String → List String × List (String × String) × FsState
  | [] => ([], [], st)
  | p :: rest =>
    match processFileStep env repo_url branch local_dir st p with
    | (.ok path, st1) =>
      let (ups, errs, st2) := processFilesTagged env repo_url branch local_dir st1 rest
      (path :: ups, errs, st2)
    | (.error msg, st1) =>
      let (ups, errs, st2) := processFilesTagged env repo_url branch local_dir st1 rest
      (ups, (p, msg) :: errs, st2)

/-- Line 191 of `src/updater.py`:
`'success' if not errors else 'partial' if updated_files else 'failed'`. -/
def classify (updated_files errors : List String) : String :=
  if errors = [] then "success" else if updated_files ≠ [] then "partial" else "failed"

/-- Lines 84-206 of `src/updater.py`: the synchronization entry point.
Returns the result dictionary and the final filesystem state. -/
def update_files_from_github (env : Env)
    (repo_url manifest_path local_dir branch : String) (st : FsState) :
    SyncResult × FsState :=
  match env.makedirs local_dir with
  | .error e => (mkFailed ("Update failed: " ++ e), st)
  | .ok _ =>
    let remote_manifest_url := repo_url ++ "/contents/" ++ manifest_path ++ "?ref=" ++ branch
    match fetchManifestPhase env remote_manifest_url with
    | (.error r, urls) => (r, { st with fetchLog := st.fetchLog ++ urls })
    | (.ok remote_manifest_content, urls) =>
      let st := { st with fetchLog := st.fetchLog ++ urls }
      let local_manifest_path := joinPath local_dir manifest_path
      match load_local_manifest env st local_manifest_path with
      | .error e => (mkFailed ("Update failed: " ++ e), st)
      | .ok local_manifest =>
        let remote_version := remote_manifest_content.version.getD "0.0.0"
        let local_version := local_manifest.version.getD "0.0.0"
        if remote_version ≠ local_version then
          match processFiles env repo_url branch local_dir st
              (remote_manifest_content.files.getD []) with
          | (updated_files, errors, st1) =>
            if updated_files ≠ [] ∧ errors = [] then
              match env.writeJson local_manifest_path with
              | .error e => (mkFailed ("Update failed: " ++ e), st1)
              | .ok _ =>
                ({ status := classify updated_files errors,
                   updated_files := updated_files, errors := errors },
                 writeFile st1 local_manifest_path (.jsonData remote_manifest_content))
            else
              ({ status := classify updated_files errors,
                 updated_files := updated_files, errors := errors }, st1)
        else
          ({ status := "no_update_needed", updated_files := [], errors := [] }, st)

/-- Lines 5-82 of `src/updater.py`: the read-only availability check.  It
never mutates the filesystem state, so only the result is returned. -/
def check_updates_available (env : Env)
    (repo_url manifest_path local_dir branch : String) (st : FsState) : AvailResult :=
  match env.makedirs local_dir with
  | .error e => { update_available := false, remote_version := none,
                  errors := ["Update check failed: " ++ e] }
  | .ok _ =>
    let murl := repo_url ++ "/contents/" ++ manifest_path ++ "?ref=" ++ branch
    match env.net murl with
    | .error e => { update_available := false, remote_version := none,
                    errors := ["Update check failed: " ++ e] }
    | .ok response =>
      if response.status_code = 404 then
        { update_available := false, remote_version := none,
          errors := ["Manifest file not found at " ++ murl] }
      else if response.status_code = 403 then
        { update_available := false, remote_version := none, errors := [forbiddenMsg] }
      else if isHttpError response.status_code then
        { update_available := false, remote_version := none,
          errors := ["Update check failed: " ++ httpErrorMsg response.status_code murl] }
      else
        match response.jsonResult with
        | .error e => { update_available := false, remote_version := none,
                        errors := ["Update check failed: " ++ e] }
        | .ok remote_manifest_data =>
          match remote_manifest_data.download_url with
          | none => { update_available := false, remote_version := none,
                      errors := ["Update check failed: " ++ keyErrorMsg "download_url"] }
          | some durl =>
            match env.net durl with
            | .error e => { update_available := false, remote_version := none,
                            errors := ["Update check failed: " ++ e] }
            | .ok manifest_response =>
              if manifest_response.status_code ≠ 200 then
                { update_available := false, remote_version := none,
                  errors := ["Failed to fetch manifest content from " ++ durl ++
                             " (HTTP " ++ toString manifest_response.status_code ++ ")"] }
              else
                match manifest_response.jsonResult with
                | .error e => { update_available := false, remote_version := none,
                                errors := ["Update check failed: " ++ e] }
                | .ok remote_manifest_content =>
                  match load_local_manifest_check env st (joinPath local_dir manifest_path) with
                  | .error e => { update_available := false, remote_version := none,
                                  errors := ["Update check failed: " ++ e] }
                  | .ok local_manifest =>
                    let remote_version := remote_manifest_content.version.getD "0.0.0"
                    let local_version := local_manifest.version.getD "0.0.0"
                    { update_available := remote_version ≠ local_version,
                      remote_version := some remote_version, errors := [] }

end updater

namespace Updater

/-- Lines 18-26 of `src/Updater.py`: the older manifest resolution.  No
404/403 special-casing (`raise_for_status` covers them) and — unlike the
newer code — no status check on the second hop: the manifest body is parsed
whatever the download status was. -/
def fetchManifestPhase (env : Env) (murl : String) :
    Except SyncResult JObj × List String :=
  match env.net murl with
  | .error e => (.error (mkFailed ("Update failed: " ++ e)), [murl])
  | .ok response =>
    if isHttpError response.status_code then
      (.error (mkFailed ("Update failed: " ++ httpErrorMsg response.status_code murl)), [murl])
    else
      match response.jsonResult with
      | .error e => (.error (mkFailed ("Update failed: " ++ e)), [murl])
      | .ok remote_manifest_data =>
        match remote_manifest_data.download_url with
        | none => (.error (mkFailed ("Update failed: " ++ keyErrorMsg "download_url")), [murl])
        | some durl =>
          match env.net durl with
          | .error e => (.error (mkFailed ("Update failed: " ++ e)), [murl, durl])
          | .ok manifest_response =>
            match manifest_response.jsonResult with
            | .error e => (.error (mkFailed ("Update failed: " ++ e)), [murl, durl])
            | .ok remote_manifest_content => (.ok remote_manifest_content, [murl, durl])

/-- Lines 42-57 of `src/Updater.py`: one iteration of the older per-file
loop.  `file_response.raise_for_status()` raises exactly on 4xx/5xx (other
non-200 statuses fall through to `.json()`); every failure is wrapped as
`Failed to update <path>: <cause>`. -/
def processFileStep (env : Env) (repo_url branch local_dir : String)
    (st : FsState) (file_path : String) : Except String String × FsState :=
  let file_url := repo_url ++ "/contents/" ++ file_path ++ "?ref=" ++ branch
  let st := logFetch st file_url
  match env.net file_url with
  | .error e => (.error ("Failed to update " ++ file_path ++ ": " ++ e), st)
  | .ok file_response =>
    if isHttpError file_response.status_code then
      (.error ("Failed to update " ++ file_path ++ ": " ++
               httpErrorMsg file_response.status_code file_url), st)
    else
      match file_response.jsonResult with
      | .error e => (.error ("Failed to update " ++ file_path ++ ": " ++ e), st)
      | .ok file_data =>
        match file_data.download_url with
        | none => (.error ("Failed to update " ++ file_path ++ ": " ++
                           keyErrorMsg "download_url"), st)
        | some durl =>
          let st := logFetch st durl
          match env.net durl with
          | .error e => (.error ("Failed to update " ++ file_path ++ ": " ++ e), st)
          | .ok dl =>
            let local_file_path := joinPath local_dir file_path
            match env.makedirs (dirname local_file_path) with
            | .error e => (.error ("Failed to update " ++ file_path ++ ": " ++ e), st)
            | .ok _ =>
              match env.writeBytes local_file_path with
              | .error e => (.error ("Failed to update " ++ file_path ++ ": " ++ e), st)
              | .ok _ => (.ok file_path, writeFile st local_file_path (.raw dl.content))

/-- Lines 41-57 of `src/Updater.py`: the older per-file loop. -/
def processFiles (env : Env) (repo_url branch local_dir : String)
    (st : FsState) : List String → List String × List String × FsState
  | [] => ([], [], st)
  | p :: rest =>
    match processFileStep env repo_url branch local_dir st p with
    | (.ok path, st1) =>
      let (ups, errs, st2) := processFiles env repo_url branch local_dir st1 rest
      (path :: ups, errs, st2)
    | (.error msg, st1) =>
      let (ups, errs, st2) := processFiles env repo_url branch local_dir st1 rest
      (ups, msg :: errs, st2)

/-- Lines 5-80 of `src/Updater.py`: the older synchronization entry point
(no token parameter; same local-manifest handling, version gate, loop
structure, manifest persistence rule and classifier as the newer code). -/
def update_files_from_github (env : Env)
    (repo_url manifest_path local_dir branch : String) (st : FsState) :
    SyncResult × FsState :=
  match env.makedirs local_dir with
  | .error e => (mkFailed ("Update failed: " ++ e), st)
  | .ok _ =>
    let remote_manifest_url := repo_url ++ "/contents/" ++ manifest_path ++ "?ref=" ++ branch
    match fetchManifestPhase env remote_manifest_url with
    | (.error r, urls) => (r, { st with fetchLog := st.fetchLog ++ urls })
    | (.ok remote_manifest_content, urls) =>
      let st := { st with fetchLog := st.fetchLog ++ urls }
      let local_manifest_path := joinPath local_dir manifest_path
      match updater.load_local_manifest env st local_manifest_path with
      | .error e => (mkFailed ("Update failed: " ++ e), st)
      | .ok local_manifest =>
        let remote_version := remote_manifest_content.version.getD "0.0.0"
        let local_version := local_manifest.version.getD "0.0.0"
        if remote_version ≠ local_version then
          match processFiles env repo_url branch local_dir st
              (remote_manifest_content.files.getD []) with
          | (updated_files, errors, st1) =>
            if updated_files ≠ [] ∧ errors = [] then
              match env.writeJson local_manifest_path with
              | .error e => (mkFailed ("Update failed: " ++ e), st1)
              | .ok _ =>
                ({ status := updater.classify updated_files errors,
                   updated_files := updated_files, errors := errors },
                 writeFile st1 local_manifest_path (.jsonData remote_manifest_content))
            else
              ({ status := updater.classify updated_files errors,
                 updated_files := updated_files, errors := errors }, st1)
        else
          ({ status := "no_update_needed", updated_files := [], errors := [] }, st)

end Updater

/-! Concrete environments used for counterexamples and witnesses. -/

/-- An environment built from a finite URL table; unlisted URLs raise a
connection error, all filesystem operations succeed, and raw bytes parse
with the supplied `json.load` oracle. -/
def mkEnv (tbl : List (String × HttpResponse)) (parse : List Nat → Except String JObj) : Env :=
  { net := fun url =>
      match tbl.find? (fun kv => kv.fst = url) with
      | some kv => .ok kv.snd
      | none => .error ("connection error: " ++ url)
    makedirs := fun _ => .ok ()
    writeBytes := fun _ => .ok ()
    writeJson := fun _ => .ok ()
    json_loads := parse }

/-- A response whose body parses as the given JSON object. -/
def jresp (code : Nat) (j : JObj) : HttpResponse :=
  { status_code := code, jsonResult := .ok j, content := [] }

/-- A response whose body is raw bytes and does not parse as JSON. -/
def bresp (code : Nat) (bs : List Nat) : HttpResponse :=
  { status_code := code, jsonResult := .error "Expecting value", content := bs }

/-- A `json.load` oracle for which every raw byte string is malformed. -/
def noParse : List Nat → Except String JObj := fun _ => .error "Expecting value"

/-- The metadata URL of manifest path `m` in repository `R` on branch
`main`, as both engines compute it. -/
def murl0 : String := "R/contents/m?ref=main"

/-- Environment where the remote manifest (version `1.0.0`) lists no
files. -/
def envEmptyFiles : Env :=
  mkEnv [(murl0, jresp 200 { download_url := some "D" }),
         ("D", jresp 200 { version := some "1.0.0", files := some [] })] noParse

/-- Environment where the manifest metadata hop succeeds but the download
locator `D` answers with HTTP 500 and a body that still parses as (empty)
JSON. -/
def envSecondHop500 : Env :=
  mkEnv [(murl0, jresp 200 { download_url := some "D" }),
         ("D", jresp 500 {})] noParse

/-- Environment where file `f`, listed by the remote manifest, has its
download locator `df` answer HTTP 404 with body bytes `[1, 2, 3]`. -/
def envFile404Body : Env :=
  mkEnv [(murl0, jresp 200 { download_url := some "D" }),
         ("D", jresp 200 { version := some "1.0.0", files := some ["f"] }),
         ("R/contents/f?ref=main", jresp 200 { download_url := some "df" }),
         ("df", bresp 404 [1, 2, 3])] noParse

/-- Environment where the remote manifest lists the manifest path `m`
itself (whose fetch succeeds) and a file `x` whose fetch fails. -/
def envSelfListing : Env :=
  mkEnv [(murl0, jresp 200 { download_url := some "D" }),
         ("D", jresp 200 { version := some "1.0.0", files := some ["m", "x"] })] noParse

/-- Environment where one file `f` fully succeeds (content bytes `[7]`). -/
def envOneFileOk : Env :=
  mkEnv [(murl0, jresp 200 { download_url := some "D" }),
         ("D", jresp 200 { version := some "1.0.0", files := some ["f"] }),
         ("R/contents/f?ref=main", jresp 200 { download_url := some "df" }),
         ("df", bresp 200 [7])] noParse

/-- Environment with files `[a, b, c]` where `a` and `c` succeed and `b`
fails with HTTP 404 on the metadata hop. -/
def envABC : Env :=
  mkEnv [(murl0, jresp 200 { download_url := some "D" }),
         ("D", jresp 200 { version := some "1.0.0", files := some ["a", "b", "c"] }),
         ("R/contents/a?ref=main", jresp 200 { download_url := some "da" }),
         ("da", bresp 200 [1]),
         ("R/contents/b?ref=main", bresp 404 []),
         ("R/contents/c?ref=main", jresp 200 { download_url := some "dc" }),
         ("dc", bresp 200 [3])] noParse

/-- Environment where the remote manifest lists the manifest path `m`
itself (whose fetch succeeds), a file `b` whose fetch fails with HTTP 404,
and a file `c` that succeeds. -/
def envABCSelf : Env :=
  mkEnv [(murl0, jresp 200 { download_url := some "D" }),
         ("D", jresp 200 { version := some "1.0.0", files := some ["m", "b", "c"] }),
         ("R/contents/b?ref=main", bresp 404 []),
         ("R/contents/c?ref=main", jresp 200 { download_url := some "dc" }),
         ("dc", bresp 200 [3])] noParse

/-- A time-varying environment: each oracle also receives the number of
environment operations the per-file loop has performed so far, so two
calls with the same URL or path may answer differently within one run —
as real `requests.get` and real file writes can.  The time-invariant
`Env` is the special case where every oracle ignores the counter. -/
structure EnvT where
  net : Nat → String → Except String HttpResponse
  makedirs : Nat → String → Except String Unit
  writeBytes : Nat → String → Except String Unit
  json_loads : Nat → List Nat → Except String JObj

namespace updater

/-- Lines 153-177 of `src/updater.py` again, now against the time-varying
environment: identical control flow to `processFileStep`, threading the
operation counter through the oracle calls. -/
def processFileStepT (envT : EnvT) (repo_url branch local_dir : String)
    (t : Nat) (st : FsState) (file_path : String) :
    Except String String × Nat × FsState :=
  let file_url := repo_url ++ "/contents/" ++ file_path ++ "?ref=" ++ branch
  let st := logFetch st file_url
  match envT.net t file_url with
  | .error e => (.error ("Failed to update " ++ file_path ++ ": " ++ e), t + 1, st)
  | .ok file_response =>
    if file_response.status_code ≠ 200 then
      (.error ("Failed to fetch file " ++ file_path ++ " from " ++ file_url ++
               " (HTTP " ++ toString file_response.status_code ++ ")"), t + 1, st)
    else
      match file_response.jsonResult with
      | .error e => (.error ("Failed to update " ++ file_path ++ ": " ++ e), t + 1, st)
      | .ok file_data =>
        match file_data.download_url with
        | none => (.error ("Failed to update " ++ file_path ++ ": " ++
                           keyErrorMsg "download_url"), t + 1, st)
        | some durl =>
          let st := logFetch st durl
          match envT.net (t + 1) durl with
          | .error e => (.error ("Failed to update " ++ file_path ++ ": " ++ e), t + 2, st)
          | .ok dl =>
            let local_file_path := joinPath local_dir file_path
            match envT.makedirs (t + 2) (dirname local_file_path) with
            | .error e => (.error ("Failed to update " ++ file_path ++ ": " ++ e), t + 3, st)
            | .ok _ =>
              match envT.writeBytes (t + 3) local_file_path with
              | .error e => (.error ("Failed to update " ++ file_path ++ ": " ++ e), t + 4, st)
              | .ok _ =>
                (.ok file_path, t + 4, writeFile st local_file_path (.raw dl.content))

/-- The per-file loop against the time-varying environment. -/
def processFilesT (envT : EnvT) (repo_url branch local_dir : String)
    (t : Nat) (st : FsState) :
    List String → List String × List String × Nat × FsState
  | [] => ([], [], t, st)
  | p :: rest =>
    match processFileStepT envT repo_url branch local_dir t st p with
    | (.ok path, t1, st1) =>
      let (ups, errs, t2, st2) := processFilesT envT repo_url branch local_dir t1 st1 rest
      (path :: ups, errs, t2, st2)
    | (.error msg, t1, st1) =>
      let (ups, errs, t2, st2) := processFilesT envT repo_url branch local_dir t1 st1 rest
      (ups, msg :: errs, t2, st2)

/-- The provenance-tagged per-file loop against the time-varying
environment. -/
def processFilesTaggedT (envT : EnvT) (repo_url branch local_dir : String)
    (t : Nat) (st : FsState) :
    List String → List String × List (String × String) × Nat × FsState
  | [] => ([], [], t, st)
  | p :: rest =>
    match processFileStepT envT repo_url branch local_dir t st p with
    | (.ok path, t1, st1) =>
      let (ups, errs, t2, st2) := processFilesTaggedT envT repo_url branch local_dir t1 st1 rest
      (path :: ups, errs, t2, st2)
    | (.error msg, t1, st1) =>
      let (ups, errs, t2, st2) := processFilesTaggedT envT repo_url branch local_dir t1 st1 rest
      (ups, (p, msg) :: errs, t2, st2)

end updater

/-- A time-varying environment in which the first resolution of file `p`
fully succeeds (metadata at operation 0, download at operation 1, then
directory creation and write) while every network operation from
operation 4 on raises a transient transport error — so a second fetch of
the very same path fails. -/
def envT8 : EnvT :=
  { net := fun t url =>
      if t = 0 then
        (if url = "R/contents/p?ref=main" then
           .ok (jresp 200 { download_url := some "dp" })
         else .error ("connection error: " ++ url))
      else if t = 1 then
        (if url = "dp" then .ok (bresp 200 [5])
         else .error ("connection error: " ++ url))
      else .error "Connection aborted"
    makedirs := fun _ _ => .ok ()
    writeBytes := fun _ _ => .ok ()
    json_loads := fun _ _ => .error "Expecting value" }

/-! Derived definitions used to state the verification lemmas. -/

/-- Whether one loop iteration on `p` succeeds (ends in `updated_files`). -/
def stepOk (env : Env) (rb br ld p : String) : Bool :=
  match updater.stepOutcome env rb br ld p with
  | .error _ => false
  | .ok _ => true

/-- The error message, if any, one loop iteration on `p` appends. -/
def stepErr (env : Env) (rb br ld p : String) : Option String :=
  match updater.stepOutcome env rb br ld p with
  | .error m => some m
  | .ok _ => none

/-! Shared lemmas about the embedding. -/

theorem lookupFile_writeFile (st : FsState) (p q : String) (d : FileData) :
    lookupFile (writeFile st p d) q = if p = q then some d else lookupFile st q := by
  by_cases h : p = q <;> simp [lookupFile, writeFile, List.find?, h]

theorem lookupFile_files_congr (st1 st2 : FsState) (q : String)
    (h : st1.files = st2.files) : lookupFile st1 q = lookupFile st2 q := by
  simp [lookupFile, h]

theorem load_local_manifest_congr (env : Env) (st1 st2 : FsState) (p : String)
    (h : st1.files = st2.files) :
    updater.load_local_manifest env st1 p = updater.load_local_manifest env st2 p := by
  simp [updater.load_local_manifest, lookupFile, h]

theorem step_fst (env : Env) (rb br ld : String) (st : FsState) (p : String) :
    (updater.processFileStep env rb br ld st p).fst = updater.stepOutcome env rb br ld p := by
  unfold updater.stepOutcome updater.processFileStep
  cases hn : env.net (rb ++ "/contents/" ++ p ++ "?ref=" ++ br) <;> simp only [logFetch, hn]
  repeat' split
  all_goals rfl

theorem step_ok_val (env : Env) (rb br ld : String) (p v : String)
    (h : updater.stepOutcome env rb br ld p = .ok v) : v = p := by
  unfold updater.stepOutcome updater.processFileStep at h
  simp only [logFetch] at h
  repeat' split at h
  all_goals simp_all

theorem step_state (env : Env) (rb br ld : String) (st : FsState) (p : String) :
    ((∃ m, updater.stepOutcome env rb br ld p = .error m) ∧
      (updater.processFileStep env rb br ld st p).snd.files = st.files) ∨
    (updater.stepOutcome env rb br ld p = .ok p ∧
      ∃ bs, (updater.processFileStep env rb br ld st p).snd.files =
        (joinPath ld p, FileData.raw bs) :: st.files) := by
  unfold updater.stepOutcome updater.processFileStep
  cases hn : env.net (rb ++ "/contents/" ++ p ++ "?ref=" ++ br) <;> simp only [logFetch, hn]
  · exact Or.inl ⟨⟨_, rfl⟩, trivial⟩
  · repeat' split
    all_goals first
      | exact Or.inl ⟨⟨_, rfl⟩, rfl⟩
      | exact Or.inl ⟨⟨_, rfl⟩, trivial⟩
      | exact Or.inr ⟨rfl, _, rfl⟩

theorem processFiles_updated (env : Env) (rb br ld : String) (ps : List String) (st : FsState) :
    (updater.processFiles env rb br ld st ps).fst = ps.filter (stepOk env rb br ld) := by
  induction ps generalizing st with
  | nil => simp [updater.processFiles]
  | cons p rest ih =>
    simp only [updater.processFiles]
    rcases hs : updater.processFileStep env rb br ld st p with ⟨out, st1⟩
    have ho : updater.stepOutcome env rb br ld p = out := by
      rw [← step_fst env rb br ld st p, hs]
    cases out with
    | ok v =>
      have hv : v = p := step_ok_val env rb br ld p v ho
      simp [List.filter_cons, stepOk, ho, hv, ih st1]
    | error m =>
      simp [List.filter_cons, stepOk, ho, ih st1]

theorem processFiles_errors (env : Env) (rb br ld : String) (ps : List String) (st : FsState) :
    (updater.processFiles env rb br ld st ps).snd.fst = ps.filterMap (stepErr env rb br ld) := by
  induction ps generalizing st with
  | nil => simp [updater.processFiles]
  | cons p rest ih =>
    simp only [updater.processFiles]
    rcases hs : updater.processFileStep env rb br ld st p with ⟨out, st1⟩
    have ho : updater.stepOutcome env rb br ld p = out := by
      rw [← step_fst env rb br ld st p, hs]
    cases out with
    | ok v => simp [List.filterMap_cons, stepErr, ho, ih st1]
    | error m => simp [List.filterMap_cons, stepErr, ho, ih st1]

theorem processFilesTagged_spec (env : Env) (rb br ld : String) (ps : List String) (st : FsState) :
    updater.processFilesTagged env rb br ld st ps =
      ((updater.processFiles env rb br ld st ps).fst,
       ps.filterMap (fun p => (stepErr env rb br ld p).map (fun m => (p, m))),
       (updater.processFiles env rb br ld st ps).snd.snd) := by
  induction ps generalizing st with
  | nil => simp [updater.processFiles, updater.processFilesTagged]
  | cons p rest ih =>
    simp only [updater.processFiles, updater.processFilesTagged]
    rcases hs : updater.processFileStep env rb br ld st p with ⟨out, st1⟩
    have ho : updater.stepOutcome env rb br ld p = out := by
      rw [← step_fst env rb br ld st p, hs]
    cases out with
    | ok v => simp [List.filterMap_cons, stepErr, ho, ih st1]
    | error m => simp [List.filterMap_cons, stepErr, ho, ih st1]

theorem processFiles_lookup (env : Env) (rb br ld : String) (ps : List String)
    (st : FsState) (q : String) :
    lookupFile (updater.processFiles env rb br ld st ps).snd.snd q = lookupFile st q ∨
    ∃ bs, lookupFile (updater.processFiles env rb br ld st ps).snd.snd q =
      some (FileData.raw bs) := by
  induction ps generalizing st with
  | nil => exact Or.inl rfl
  | cons p rest ih =>
    simp only [updater.processFiles]
    rcases hs : updater.processFileStep env rb br ld st p with ⟨out, st1⟩
    have hstate := step_state env rb br ld st p
    rw [hs] at hstate
    cases out with
    | ok v =>
      rcases hstate with ⟨⟨m, hm⟩, _⟩ | ⟨_, bs, hb⟩
      · rw [← step_fst env rb br ld st p, hs] at hm; simp at hm
      · rcases ih st1 with h | h
        · have : lookupFile st1 q = if joinPath ld p = q then some (FileData.raw bs)
              else lookupFile st q := by
            unfold lookupFile
            rw [hb]
            by_cases hq : joinPath ld p = q <;> simp [List.find?, hq]
          rw [this] at h
          by_cases hq : joinPath ld p = q
          · right; rw [if_pos hq] at h; exact ⟨bs, by simpa using h⟩
          · left; rw [if_neg hq] at h; simpa using h
        · right; simpa using h
    | error m =>
      rcases hstate with ⟨_, hfiles⟩ | ⟨hok, _⟩
      · have : lookupFile st1 q = lookupFile st q := lookupFile_files_congr _ _ _ hfiles
        rcases ih st1 with h | h
        · left; rw [this] at h; simpa using h
        · right; simpa using h
      · rw [← step_fst env rb br ld st p, hs] at hok; simp at hok

theorem fetchManifestPhase_cases (env : Env) (murl : String) :
    (∃ msg urls, updater.fetchManifestPhase env murl =
      (.error { status := "failed", updated_files := [], errors := [msg] }, urls)) ∨
    (∃ c durl, updater.fetchManifestPhase env murl = (.ok c, [murl, durl])) := by
  unfold updater.fetchManifestPhase mkFailed
  repeat' split
  all_goals first
    | exact Or.inl ⟨_, _, rfl⟩
    | exact Or.inr ⟨_, _, rfl⟩

theorem classify_success (u e : List String) :
    updater.classify u e = "success" ↔ e = [] := by
  unfold updater.classify
  split_ifs with h1 h2 <;> simp_all

theorem classify_partial_iff (u e : List String) :
    updater.classify u e = "partial" ↔ e ≠ [] ∧ u ≠ [] := by
  unfold updater.classify
  split_ifs with h1 h2 <;> simp_all

theorem classify_failed (u e : List String) :
    updater.classify u e = "failed" ↔ e ≠ [] ∧ u = [] := by
  unfold updater.classify
  split_ifs with h1 h2 <;> simp_all

theorem classify_ne_noupdate (u e : List String) :
    updater.classify u e ≠ "no_update_needed" := by
  unfold updater.classify
  split_ifs <;> simp

theorem fetchManifestPhase_eq_ok (env : Env) (murl : String) (resp mresp : HttpResponse)
    (md c : JObj) (durl : String)
    (h1 : env.net murl = .ok resp) (h2 : resp.status_code = 200)
    (h3 : resp.jsonResult = .ok md) (h4 : md.download_url = some durl)
    (h5 : env.net durl = .ok mresp) (h6 : mresp.status_code = 200)
    (h7 : mresp.jsonResult = .ok c) :
    updater.fetchManifestPhase env murl = (.ok c, [murl, durl]) := by
  unfold updater.fetchManifestPhase
  rw [h1]
  simp [h2, h3, h4, h5, h6, h7, isHttpError]

theorem run_eq (env : Env) (rb mp ld br : String) (st : FsState) (c : JObj)
    (durl : String) (lm : JObj)
    (hmk : env.makedirs ld = .ok ())
    (hf : updater.fetchManifestPhase env (rb ++ "/contents/" ++ mp ++ "?ref=" ++ br) =
      (.ok c, [rb ++ "/contents/" ++ mp ++ "?ref=" ++ br, durl]))
    (hl : updater.load_local_manifest env st (joinPath ld mp) = .ok lm) :
    updater.update_files_from_github env rb mp ld br st =
      (if c.version.getD "0.0.0" ≠ lm.version.getD "0.0.0" then
         match updater.processFiles env rb br ld
             { st with fetchLog :=
                st.fetchLog ++ [rb ++ "/contents/" ++ mp ++ "?ref=" ++ br, durl] }
             (c.files.getD []) with
         | (ups, errs, st1) =>
           if ups ≠ [] ∧ errs = [] then
             match env.writeJson (joinPath ld mp) with
             | .error e => (mkFailed ("Update failed: " ++ e), st1)
             | .ok _ => ({ status := updater.classify ups errs,
                           updated_files := ups, errors := errs },
                         writeFile st1 (joinPath ld mp) (.jsonData c))
           else ({ status := updater.classify ups errs,
                   updated_files := ups, errors := errs }, st1)
       else ({ status := "no_update_needed", updated_files := [], errors := [] },
             { st with fetchLog :=
                st.fetchLog ++ [rb ++ "/contents/" ++ mp ++ "?ref=" ++ br, durl] })) := by
  have hl0 : updater.load_local_manifest env
      { st with fetchLog := st.fetchLog ++ [rb ++ "/contents/" ++ mp ++ "?ref=" ++ br, durl] }
      (joinPath ld mp) = .ok lm :=
    (load_local_manifest_congr env
      { st with fetchLog := st.fetchLog ++ [rb ++ "/contents/" ++ mp ++ "?ref=" ++ br, durl] }
      st (joinPath ld mp) rfl).trans hl
  simp only [updater.update_files_from_github, hmk, hf, hl0]

/-! Further shared lemmas used by several of the claim theorems. -/

theorem load_check_version (env : Env) (st : FsState) (p : String) (lm : JObj)
    (h : updater.load_local_manifest env st p = .ok lm) :
    ∃ lmc, updater.load_local_manifest_check env st p = .ok lmc ∧ lmc.version = lm.version := by
  unfold updater.load_local_manifest at h
  unfold updater.load_local_manifest_check
  cases hx : lookupFile st p with
  | none =>
    simp only [hx, Except.ok.injEq] at h
    subst h
    exact ⟨_, rfl, rfl⟩
  | some fd =>
    cases fd with
    | jsonData j =>
      simp only [hx, Except.ok.injEq] at h
      subst h
      exact ⟨_, rfl, rfl⟩
    | raw bs =>
      simp only [hx] at h ⊢
      exact ⟨lm, h, rfl⟩

theorem check_eq (env : Env) (rb mp ld br : String) (st : FsState)
    (resp mresp : HttpResponse) (md c lmc : JObj) (durl : String)
    (hmk : env.makedirs ld = .ok ())
    (h1 : env.net (rb ++ "/contents/" ++ mp ++ "?ref=" ++ br) = .ok resp)
    (h2 : resp.status_code = 200)
    (h3 : resp.jsonResult = .ok md) (h4 : md.download_url = some durl)
    (h5 : env.net durl = .ok mresp) (h6 : mresp.status_code = 200)
    (h7 : mresp.jsonResult = .ok c)
    (hlc : updater.load_local_manifest_check env st (joinPath ld mp) = .ok lmc) :
    updater.check_updates_available env rb mp ld br st =
      { update_available := c.version.getD "0.0.0" ≠ lmc.version.getD "0.0.0",
        remote_version := some (c.version.getD "0.0.0"), errors := [] } := by
  unfold updater.check_updates_available
  simp [hmk, h1, h2, h3, h4, h5, h6, h7, hlc, isHttpError]

theorem processFiles_lookup_ok_notmem (env : Env) (rb br ld : String) (ps : List String)
    (st : FsState) (q : String)
    (h : ∀ p ∈ ps, stepOk env rb br ld p = true → joinPath ld p ≠ q) :
    lookupFile (updater.processFiles env rb br ld st ps).snd.snd q = lookupFile st q := by
  induction ps generalizing st with
  | nil => rfl
  | cons p rest ih =>
    simp only [updater.processFiles]
    rcases hs : updater.processFileStep env rb br ld st p with ⟨out, st1⟩
    have hstate := step_state env rb br ld st p
    rw [hs] at hstate
    have hrest : ∀ x ∈ rest, stepOk env rb br ld x = true → joinPath ld x ≠ q :=
      fun x hx => h x (List.mem_cons_of_mem p hx)
    have hst1 : lookupFile st1 q = lookupFile st q := by
      rcases hstate with ⟨_, hfiles⟩ | ⟨hok, bs, hfiles⟩
      · exact lookupFile_files_congr _ _ _ hfiles
      · have hOk : stepOk env rb br ld p = true := by simp [stepOk, hok]
        unfold lookupFile
        rw [hfiles]
        simp [List.find?, h p (List.mem_cons_self p rest) hOk]
    cases out with
    | ok v => simpa using (ih st1 hrest).trans hst1
    | error m => simpa using (ih st1 hrest).trans hst1

theorem processFiles_error_cons (env : Env) (rb br ld p : String) (rest : List String)
    (st : FsState) (m : String) (h : updater.stepOutcome env rb br ld p = .error m) :
    (updater.processFiles env rb br ld st (p :: rest)).fst =
      (updater.processFiles env rb br ld st rest).fst ∧
    (updater.processFiles env rb br ld st (p :: rest)).snd.fst =
      m :: (updater.processFiles env rb br ld st rest).snd.fst := by
  constructor
  · rw [processFiles_updated, processFiles_updated, List.filter_cons]
    simp [stepOk, h]
  · rw [processFiles_errors, processFiles_errors, List.filterMap_cons]
    simp [stepErr, h]

theorem stepOk_none_stepErr (env : Env) (rb br ld p : String)
    (h : stepOk env rb br ld p = true) : stepErr env rb br ld p = none := by
  unfold stepOk at h
  unfold stepErr
  cases hx : updater.stepOutcome env rb br ld p <;> simp [hx] at h ⊢

theorem classify_mem (u e : List String) :
    updater.classify u e = "success" ∨ updater.classify u e = "partial" ∨
    updater.classify u e = "failed" := by
  unfold updater.classify
  split_ifs <;> simp

theorem run_result_cases (env : Env) (rb mp ld br : String) (st : FsState) :
    (∃ m, (updater.update_files_from_github env rb mp ld br st).fst =
      { status := "failed", updated_files := [], errors := [m] }) ∨
    ((updater.update_files_from_github env rb mp ld br st).fst =
      { status := "no_update_needed", updated_files := [], errors := [] }) ∨
    (∃ ups errs, (updater.update_files_from_github env rb mp ld br st).fst =
      { status := updater.classify ups errs, updated_files := ups, errors := errs }) := by
  cases hmk : env.makedirs ld with
  | error e =>
    exact Or.inl ⟨_, by simp only [updater.update_files_from_github, hmk]; rfl⟩
  | ok u =>
    cases u
    rcases fetchManifestPhase_cases env (rb ++ "/contents/" ++ mp ++ "?ref=" ++ br) with
      ⟨msg, urls, hfe⟩ | ⟨c, durl, hfo⟩
    · exact Or.inl ⟨msg, by simp only [updater.update_files_from_github, hmk, hfe]⟩
    · cases hlr : updater.load_local_manifest env st (joinPath ld mp) with
      | error e =>
        have hl0 : updater.load_local_manifest env
            { st with fetchLog :=
               st.fetchLog ++ [rb ++ "/contents/" ++ mp ++ "?ref=" ++ br, durl] }
            (joinPath ld mp) = .error e :=
          (load_local_manifest_congr env _ st (joinPath ld mp) rfl).trans hlr
        exact Or.inl ⟨_, by simp only [updater.update_files_from_github, hmk, hfo, hl0]; rfl⟩
      | ok lm =>
        rw [run_eq env rb mp ld br st c durl lm hmk hfo hlr]
        by_cases hv : c.version.getD "0.0.0" = lm.version.getD "0.0.0"
        · simp only [if_neg (not_not_intro hv)]
          exact Or.inr (Or.inl (by first | rfl | trivial))
        · rcases hp : updater.processFiles env rb br ld
              { st with fetchLog :=
                 st.fetchLog ++ [rb ++ "/contents/" ++ mp ++ "?ref=" ++ br, durl] }
              (c.files.getD []) with ⟨ups, errs, st1⟩
          simp only [if_pos hv, hp]
          by_cases hcond : ups ≠ [] ∧ errs = []
          · simp only [if_pos hcond]
            cases hw : env.writeJson (joinPath ld mp) with
            | error e => exact Or.inl ⟨_, rfl⟩
            | ok u2 => exact Or.inr (Or.inr ⟨ups, errs, rfl⟩)
          · simp only [if_neg hcond]
            exact Or.inr (Or.inr ⟨ups, errs, rfl⟩)

theorem classify_congr (u1 u2 e1 e2 : List String) (hu : u1 = u2)
    (he : e1 = [] ↔ e2 = []) : updater.classify u1 e1 = updater.classify u2 e2 := by
  subst hu
  unfold updater.classify
  by_cases h1 : e1 = []
  · rw [if_pos h1, if_pos (he.mp h1)]
  · rw [if_neg h1, if_neg (fun h => h1 (he.mpr h))]

theorem step_equiv (env : Env)
    (H1 : ∀ url resp, env.net url = .ok resp →
      resp.status_code = 200 ∨ (400 ≤ resp.status_code ∧ resp.status_code < 600))
    (rb br ld p : String) (st1 st2 : FsState) (hfe : st1.files = st2.files) :
    (∃ v, (Updater.processFileStep env rb br ld st1 p).fst = .ok v ∧
          (updater.processFileStep env rb br ld st2 p).fst = .ok v ∧
          (Updater.processFileStep env rb br ld st1 p).snd.files =
            (updater.processFileStep env rb br ld st2 p).snd.files) ∨
    (∃ m1 m2, (Updater.processFileStep env rb br ld st1 p).fst = .error m1 ∧
          (updater.processFileStep env rb br ld st2 p).fst = .error m2 ∧
          (Updater.processFileStep env rb br ld st1 p).snd.files = st1.files ∧
          (updater.processFileStep env rb br ld st2 p).snd.files = st2.files) := by
  unfold Updater.processFileStep updater.processFileStep
  cases hn : env.net (rb ++ "/contents/" ++ p ++ "?ref=" ++ br) <;>
    simp only [logFetch, hn]
  · refine Or.inr ⟨_, _, rfl, rfl, ?_, ?_⟩ <;> first | rfl | trivial
  · rename_i fr
    rcases H1 _ _ hn with h200 | h45
    · rw [h200]
      have hb1 : isHttpError 200 = false := rfl
      have hb2 : ¬((200 : Nat) ≠ 200) := by simp
      simp only [hb1, Bool.false_eq_true, if_false, if_neg hb2]
      cases hj : fr.jsonResult <;> simp only [hj]
      · refine Or.inr ⟨_, _, rfl, rfl, ?_, ?_⟩ <;> first | rfl | trivial
      · rename_i fd
        cases hd : fd.download_url <;> simp only [hd]
        · refine Or.inr ⟨_, _, rfl, rfl, ?_, ?_⟩ <;> first | rfl | trivial
        · rename_i durl
          cases hn2 : env.net durl <;> simp only [hn2]
          · refine Or.inr ⟨_, _, rfl, rfl, ?_, ?_⟩ <;> first | rfl | trivial
          · cases hmk : env.makedirs (dirname (joinPath ld p)) <;> simp only [hmk]
            · refine Or.inr ⟨_, _, rfl, rfl, ?_, ?_⟩ <;> first | rfl | trivial
            · cases hwb : env.writeBytes (joinPath ld p) <;> simp only [hwb]
              · refine Or.inr ⟨_, _, rfl, rfl, ?_, ?_⟩ <;> first | rfl | trivial
              · refine Or.inl ⟨p, rfl, rfl, ?_⟩
                simp [writeFile, hfe]
    · have hhe : isHttpError fr.status_code = true := by
        unfold isHttpError
        simp only [Bool.and_eq_true, decide_eq_true_eq]
        omega
      have hne : fr.status_code ≠ 200 := by omega
      simp only [hhe, if_true, if_pos hne]
      refine Or.inr ⟨_, _, rfl, rfl, ?_, ?_⟩ <;> first | rfl | trivial

theorem processFiles_equiv (env : Env)
    (H1 : ∀ url resp, env.net url = .ok resp →
      resp.status_code = 200 ∨ (400 ≤ resp.status_code ∧ resp.status_code < 600))
    (rb br ld : String) (ps : List String) (st1 st2 : FsState)
    (hfe : st1.files = st2.files) :
    (Updater.processFiles env rb br ld st1 ps).fst =
      (updater.processFiles env rb br ld st2 ps).fst ∧
    ((Updater.processFiles env rb br ld st1 ps).snd.fst = [] ↔
      (updater.processFiles env rb br ld st2 ps).snd.fst = []) ∧
    (Updater.processFiles env rb br ld st1 ps).snd.snd.files =
      (updater.processFiles env rb br ld st2 ps).snd.snd.files := by
  induction ps generalizing st1 st2 with
  | nil => exact ⟨rfl, Iff.rfl, hfe⟩
  | cons p rest ih =>
    simp only [Updater.processFiles, updater.processFiles]
    rcases hso : Updater.processFileStep env rb br ld st1 p with ⟨o1, sa⟩
    rcases hsn : updater.processFileStep env rb br ld st2 p with ⟨o2, sb⟩
    have heq := step_equiv env H1 rb br ld p st1 st2 hfe
    rw [hso, hsn] at heq
    rcases heq with ⟨v, ho1, ho2, hfiles⟩ | ⟨m1, m2, ho1, ho2, hf1, hf2⟩
    · have ho1x : o1 = Except.ok v := ho1
      have ho2x : o2 = Except.ok v := ho2
      have hfx : sa.files = sb.files := hfiles
      subst ho1x
      subst ho2x
      obtain ⟨h1, h2, h3⟩ := ih sa sb hfx
      refine ⟨?_, ?_, ?_⟩ <;> simp [h1, h2, h3]
    · have ho1x : o1 = Except.error m1 := ho1
      have ho2x : o2 = Except.error m2 := ho2
      have hfx1 : sa.files = st1.files := hf1
      have hfx2 : sb.files = st2.files := hf2
      subst ho1x
      subst ho2x
      obtain ⟨h1, h2, h3⟩ := ih sa sb (hfx1.trans (hfe.trans hfx2.symm))
      refine ⟨?_, ?_, ?_⟩ <;> simp [h1, h2, h3]

theorem fetch_equiv (env : Env)
    (H1 : ∀ url resp, env.net url = .ok resp →
      resp.status_code = 200 ∨ (400 ≤ resp.status_code ∧ resp.status_code < 600))
    (H2 : ∀ url resp, env.net url = .ok resp → resp.status_code ≠ 200 →
      ∃ e, resp.jsonResult = .error e)
    (murl : String) :
    (∃ c uo un, Updater.fetchManifestPhase env murl = (.ok c, uo) ∧
       updater.fetchManifestPhase env murl = (.ok c, un)) ∨
    (∃ r1 r2 uo un, Updater.fetchManifestPhase env murl = (.error r1, uo) ∧
       updater.fetchManifestPhase env murl = (.error r2, un) ∧
       r1.status = "failed" ∧ r2.status = "failed" ∧
       r1.updated_files = [] ∧ r2.updated_files = []) := by
  unfold Updater.fetchManifestPhase updater.fetchManifestPhase
  cases hn : env.net murl <;> simp only [hn]
  · exact Or.inr ⟨_, _, _, _, rfl, rfl, rfl, rfl, rfl, rfl⟩
  · rename_i resp
    rcases H1 _ _ hn with h200 | h45
    · rw [h200]
      have hb1 : isHttpError 200 = false := rfl
      have hb404 : ¬((200 : Nat) = 404) := by simp
      have hb403 : ¬((200 : Nat) = 403) := by simp
      simp only [hb1, Bool.false_eq_true, if_false, if_neg hb404, if_neg hb403]
      cases hj : resp.jsonResult <;> simp only [hj]
      · exact Or.inr ⟨_, _, _, _, rfl, rfl, rfl, rfl, rfl, rfl⟩
      · rename_i md
        cases hd : md.download_url <;> simp only [hd]
        · exact Or.inr ⟨_, _, _, _, rfl, rfl, rfl, rfl, rfl, rfl⟩
        · rename_i durl
          cases hn2 : env.net durl <;> simp only [hn2]
          · exact Or.inr ⟨_, _, _, _, rfl, rfl, rfl, rfl, rfl, rfl⟩
          · rename_i mres
            rcases H1 _ _ hn2 with g200 | g45
            · rw [g200]
              have hb2 : ¬((200 : Nat) ≠ 200) := by simp
              simp only [if_neg hb2]
              cases hj2 : mres.jsonResult <;> simp only [hj2]
              · exact Or.inr ⟨_, _, _, _, rfl, rfl, rfl, rfl, rfl, rfl⟩
              · exact Or.inl ⟨_, _, _, rfl, rfl⟩
            · have hne : mres.status_code ≠ 200 := by omega
              obtain ⟨e, hje⟩ := H2 _ _ hn2 hne
              simp only [if_pos hne, hje]
              exact Or.inr ⟨_, _, _, _, rfl, rfl, rfl, rfl, rfl, rfl⟩
    · have hhe : isHttpError resp.status_code = true := by
        unfold isHttpError
        simp only [Bool.and_eq_true, decide_eq_true_eq]
        omega
      simp only [hhe, if_true]
      by_cases h404 : resp.status_code = 404
      · simp only [if_pos h404]
        exact Or.inr ⟨_, _, _, _, rfl, rfl, rfl, rfl, rfl, rfl⟩
      · simp only [if_neg h404]
        by_cases h403 : resp.status_code = 403
        · simp only [if_pos h403]
          exact Or.inr ⟨_, _, _, _, rfl, rfl, rfl, rfl, rfl, rfl⟩
        · simp only [if_neg h403]
          exact Or.inr ⟨_, _, _, _, rfl, rfl, rfl, rfl, rfl, rfl⟩

theorem mkEnv_net_ok (tbl : List (String × HttpResponse))
    (parse : List Nat → Except String JObj) (url : String) (resp : HttpResponse)
    (h : (mkEnv tbl parse).net url = .ok resp) : ∃ kv ∈ tbl, kv.snd = resp := by
  unfold mkEnv at h
  simp only at h
  cases hf : tbl.find? (fun kv => kv.fst = url) with
  | none => rw [hf] at h; cases h
  | some kv =>
    rw [hf] at h
    injection h with h
    exact ⟨kv, List.mem_of_find?_eq_some hf, h⟩

theorem stepT_ok_val (envT : EnvT) (rb br ld : String) (t : Nat) (st : FsState)
    (p v : String)
    (h : (updater.processFileStepT envT rb br ld t st p).fst = .ok v) : v = p := by
  unfold updater.processFileStepT at h
  simp only [logFetch] at h
  repeat' split at h
  all_goals simp_all

theorem processFilesT_erase (envT : EnvT) (rb br ld : String) (t : Nat) (st : FsState)
    (ps : List String) :
    updater.processFilesT envT rb br ld t st ps =
      ((updater.processFilesTaggedT envT rb br ld t st ps).fst,
       (updater.processFilesTaggedT envT rb br ld t st ps).snd.fst.map Prod.snd,
       (updater.processFilesTaggedT envT rb br ld t st ps).snd.snd) := by
  induction ps generalizing t st with
  | nil => rfl
  | cons p rest ih =>
    simp only [updater.processFilesT, updater.processFilesTaggedT]
    rcases hs : updater.processFileStepT envT rb br ld t st p with ⟨out, t1, st1⟩
    cases out <;> simp [ih t1 st1]

theorem taggedT_ups_mem (envT : EnvT) (rb br ld : String) (t : Nat) (st : FsState)
    (ps : List String) (p : String)
    (h : p ∈ (updater.processFilesTaggedT envT rb br ld t st ps).fst) : p ∈ ps := by
  induction ps generalizing t st with
  | nil => cases h
  | cons q rest ih =>
    simp only [updater.processFilesTaggedT] at h
    rcases hs : updater.processFileStepT envT rb br ld t st q with ⟨out, t1, st1⟩
    rw [hs] at h
    cases out with
    | ok v =>
      have hv : v = q := stepT_ok_val envT rb br ld t st q v (by rw [hs])
      simp only at h
      rcases List.mem_cons.mp h with rfl | h
      · rw [hv]; exact List.mem_cons_self q rest
      · exact List.mem_cons_of_mem q (ih t1 st1 h)
    | error m =>
      simp only at h
      exact List.mem_cons_of_mem q (ih t1 st1 h)

theorem taggedT_errs_mem (envT : EnvT) (rb br ld : String) (t : Nat) (st : FsState)
    (ps : List String) (x m : String)
    (h : (x, m) ∈ (updater.processFilesTaggedT envT rb br ld t st ps).snd.fst) :
    x ∈ ps := by
  induction ps generalizing t st with
  | nil => cases h
  | cons q rest ih =>
    simp only [updater.processFilesTaggedT] at h
    rcases hs : updater.processFileStepT envT rb br ld t st q with ⟨out, t1, st1⟩
    rw [hs] at h
    cases out with
    | ok v =>
      simp only at h
      exact List.mem_cons_of_mem q (ih t1 st1 h)
    | error m0 =>
      simp only at h
      rcases List.mem_cons.mp h with heq | h
      · injection heq with h1 h2
        rw [h1]
        exact List.mem_cons_self q rest
      · exact List.mem_cons_of_mem q (ih t1 st1 h)

theorem taggedT_nodup_no_overlap (envT : EnvT) (rb br ld : String) (t : Nat)
    (st : FsState) (ps : List String) :
    ps.Nodup →
    ∀ p, p ∈ (updater.processFilesTaggedT envT rb br ld t st ps).fst →
      ∀ m, (p, m) ∉ (updater.processFilesTaggedT envT rb br ld t st ps).snd.fst := by
  induction ps generalizing t st with
  | nil => intro _ p hp; cases hp
  | cons q rest ih =>
    intro hnd p hp m hm
    obtain ⟨hq, hrest⟩ := List.nodup_cons.mp hnd
    simp only [updater.processFilesTaggedT] at hp hm
    rcases hs : updater.processFileStepT envT rb br ld t st q with ⟨out, t1, st1⟩
    rw [hs] at hp hm
    cases out with
    | ok v =>
      have hv : v = q := stepT_ok_val envT rb br ld t st q v (by rw [hs])
      simp only at hp hm
      rcases List.mem_cons.mp hp with rfl | hp
      · subst hv
        exact hq (taggedT_errs_mem envT rb br ld t1 st1 rest p m hm)
      · exact ih t1 st1 hrest p hp m hm
    | error m0 =>
      simp only at hp hm
      have hpr : p ∈ rest := taggedT_ups_mem envT rb br ld t1 st1 rest p hp
      rcases List.mem_cons.mp hm with heq | hm
      · injection heq with h1 h2
        rw [h1] at hpr
        exact hq hpr
      · exact ih t1 st1 hrest p hp m hm

/-! The claim theorems, counterexamples and witnesses. -/

/-- C1 (amended): the on-disk manifest slot receives a dumped manifest only when it already held that document or the run returned a non-empty `updated_files` and empty `errors` (and then the dumped document is exactly the fetched remote manifest); in every other run the slot is unchanged except possibly by a raw file-sync write, which happens only when the remote file list contains the manifest path itself. -/
theorem C1_manifest_persistence_amended (env : Env) (rb mp ld br : String) (st : FsState) :
    (∀ j, lookupFile (updater.update_files_from_github env rb mp ld br st).snd
        (joinPath ld mp) = some (FileData.jsonData j) →
      lookupFile st (joinPath ld mp) = some (FileData.jsonData j) ∨
      ((updater.update_files_from_github env rb mp ld br st).fst.updated_files ≠ [] ∧
       (updater.update_files_from_github env rb mp ld br st).fst.errors = [] ∧
       ∃ durl, updater.fetchManifestPhase env (rb ++ "/contents/" ++ mp ++ "?ref=" ++ br)
         = (.ok j, [rb ++ "/contents/" ++ mp ++ "?ref=" ++ br, durl]))) ∧
    (((updater.update_files_from_github env rb mp ld br st).fst.errors ≠ [] ∨
      (updater.update_files_from_github env rb mp ld br st).fst.updated_files = []) →
      lookupFile (updater.update_files_from_github env rb mp ld br st).snd
          (joinPath ld mp) = lookupFile st (joinPath ld mp) ∨
      ∃ bs, lookupFile (updater.update_files_from_github env rb mp ld br st).snd
          (joinPath ld mp) = some (FileData.raw bs)) := by
  cases hmk : env.makedirs ld with
  | error e =>
    have hrun : updater.update_files_from_github env rb mp ld br st =
        (mkFailed ("Update failed: " ++ e), st) := by
      simp only [updater.update_files_from_github, hmk]
    rw [hrun]
    exact ⟨fun j h => Or.inl h, fun _ => Or.inl rfl⟩
  | ok u =>
    cases u
    rcases fetchManifestPhase_cases env (rb ++ "/contents/" ++ mp ++ "?ref=" ++ br) with
      ⟨msg, urls, hfe⟩ | ⟨c, durl, hfo⟩
    · have hrun : updater.update_files_from_github env rb mp ld br st =
          ({ status := "failed", updated_files := [], errors := [msg] },
           { st with fetchLog := st.fetchLog ++ urls }) := by
        simp only [updater.update_files_from_github, hmk, hfe]
      rw [hrun]
      have hc : lookupFile { st with fetchLog := st.fetchLog ++ urls } (joinPath ld mp) =
          lookupFile st (joinPath ld mp) := lookupFile_files_congr _ _ _ rfl
      exact ⟨fun j h => Or.inl (hc ▸ h), fun _ => Or.inl hc⟩
    · cases hlr : updater.load_local_manifest env st (joinPath ld mp) with
      | error e =>
        have hl0 : updater.load_local_manifest env
            { st with fetchLog :=
               st.fetchLog ++ [rb ++ "/contents/" ++ mp ++ "?ref=" ++ br, durl] }
            (joinPath ld mp) = .error e :=
          (load_local_manifest_congr env _ st (joinPath ld mp) rfl).trans hlr
        have hrun : updater.update_files_from_github env rb mp ld br st =
            (mkFailed ("Update failed: " ++ e),
             { st with fetchLog :=
                st.fetchLog ++ [rb ++ "/contents/" ++ mp ++ "?ref=" ++ br, durl] }) := by
          simp only [updater.update_files_from_github, hmk, hfo, hl0]
        rw [hrun]
        have hc : lookupFile
            { st with fetchLog :=
               st.fetchLog ++ [rb ++ "/contents/" ++ mp ++ "?ref=" ++ br, durl] }
            (joinPath ld mp) = lookupFile st (joinPath ld mp) :=
          lookupFile_files_congr _ _ _ rfl
        exact ⟨fun j h => Or.inl (hc ▸ h), fun _ => Or.inl hc⟩
      | ok lm =>
        rw [run_eq env rb mp ld br st c durl lm hmk hfo hlr]
        by_cases hv : c.version.getD "0.0.0" = lm.version.getD "0.0.0"
        · simp only [if_neg (not_not_intro hv)]
          have hc : lookupFile
              { st with fetchLog :=
                 st.fetchLog ++ [rb ++ "/contents/" ++ mp ++ "?ref=" ++ br, durl] }
              (joinPath ld mp) = lookupFile st (joinPath ld mp) :=
            lookupFile_files_congr _ _ _ rfl
          exact ⟨fun j h => Or.inl (hc ▸ h), fun _ => Or.inl hc⟩
        · rcases hp : updater.processFiles env rb br ld
              { st with fetchLog :=
                 st.fetchLog ++ [rb ++ "/contents/" ++ mp ++ "?ref=" ++ br, durl] }
              (c.files.getD []) with ⟨ups, errs, st1⟩
          have hlook := processFiles_lookup env rb br ld (c.files.getD [])
            { st with fetchLog :=
               st.fetchLog ++ [rb ++ "/contents/" ++ mp ++ "?ref=" ++ br, durl] }
            (joinPath ld mp)
          rw [hp] at hlook
          have hc0 : lookupFile
              { st with fetchLog :=
                 st.fetchLog ++ [rb ++ "/contents/" ++ mp ++ "?ref=" ++ br, durl] }
              (joinPath ld mp) = lookupFile st (joinPath ld mp) :=
            lookupFile_files_congr _ _ _ rfl
          rw [hc0] at hlook
          simp only [if_pos hv, hp]
          by_cases hcond : ups ≠ [] ∧ errs = []
          · simp only [if_pos hcond]
            cases hw : env.writeJson (joinPath ld mp) with
            | error e =>
              simp only [hw]
              constructor
              · intro j h
                rcases hlook with heq | ⟨bs, hraw⟩
                · exact Or.inl (heq ▸ h)
                · rw [h] at hraw; exact absurd hraw (by simp)
              · intro _; exact hlook
            | ok u2 =>
              cases u2
              simp only [hw]
              constructor
              · intro j h
                rw [lookupFile_writeFile] at h
                rw [if_pos rfl] at h
                refine Or.inr ⟨hcond.1, hcond.2, durl, ?_⟩
                rw [hfo]
                injection h with h2
                injection h2 with h3
                rw [h3]
              · intro habs
                exact absurd habs (by simp [hcond.1, hcond.2])
          · simp only [if_neg hcond]
            constructor
            · intro j h
              rcases hlook with heq | ⟨bs, hraw⟩
              · exact Or.inl (heq ▸ h)
              · rw [h] at hraw; exact absurd hraw (by simp)
            · intro _; exact hlook

/-- C1 counterexample: a remote manifest listing the manifest path itself plus a failing file yields a run with a non-empty `errors` list in which the on-disk file at the manifest path is nevertheless overwritten (by the file-sync step), refuting the claim that the manifest file is left unchanged in every errorful run. -/
theorem C1_counterexample :
    (updater.update_files_from_github envSelfListing "R" "m" "ld" "main" {}).fst.errors ≠ [] ∧
    lookupFile (updater.update_files_from_github envSelfListing "R" "m" "ld" "main" {}).snd
      (joinPath "ld" "m") ≠ lookupFile ({} : FsState) (joinPath "ld" "m") := by decide

/-- C1 witness: on a fully successful one-file run the amended theorem yields non-empty `updated_files` and empty `errors` from the fact that the final state holds the dumped remote manifest. -/
theorem C1_witness :
    (updater.update_files_from_github envOneFileOk "R" "m" "ld" "main" {}).fst.updated_files
      ≠ [] ∧
    (updater.update_files_from_github envOneFileOk "R" "m" "ld" "main" {}).fst.errors = [] := by
  have h := (C1_manifest_persistence_amended envOneFileOk "R" "m" "ld" "main" {}).1
    { download_url := none, version := some "1.0.0", files := some ["f"] } (by decide)
  rcases h with h | h
  · exact absurd h (by decide)
  · exact ⟨h.1, h.2.1⟩

/-- C2 (amended): a non-success status on the manifest resolution second hop yields the failed result naming the download locator and status code; for per-file fetches the second hop status is never checked - whatever the status, the body bytes are written and the file counted as updated. -/
theorem C2_second_hop_amended :
    (∀ (env : Env) (rb mp ld br : String) (st : FsState) (resp mresp : HttpResponse)
        (md : JObj) (durl : String),
      env.makedirs ld = .ok () →
      env.net (rb ++ "/contents/" ++ mp ++ "?ref=" ++ br) = .ok resp →
      resp.status_code = 200 → resp.jsonResult = .ok md →
      md.download_url = some durl → env.net durl = .ok mresp →
      mresp.status_code ≠ 200 →
      updater.update_files_from_github env rb mp ld br st =
        ({ status := "failed", updated_files := [],
           errors := ["Failed to fetch manifest content from " ++ durl ++
                      " (HTTP " ++ toString mresp.status_code ++ ")"] },
         { st with fetchLog :=
            st.fetchLog ++ [rb ++ "/contents/" ++ mp ++ "?ref=" ++ br, durl] })) ∧
    (∀ (env : Env) (rb br ld : String) (st : FsState) (p : String)
        (fresp dl : HttpResponse) (fd : JObj) (fdurl : String),
      env.net (rb ++ "/contents/" ++ p ++ "?ref=" ++ br) = .ok fresp →
      fresp.status_code = 200 → fresp.jsonResult = .ok fd →
      fd.download_url = some fdurl → env.net fdurl = .ok dl →
      env.makedirs (dirname (joinPath ld p)) = .ok () →
      env.writeBytes (joinPath ld p) = .ok () →
      updater.stepOutcome env rb br ld p = .ok p ∧
      (updater.processFileStep env rb br ld st p).snd.files =
        (joinPath ld p, FileData.raw dl.content) :: st.files) := by
  constructor
  · intro env rb mp ld br st resp mresp md durl hmk h1 h2 h3 h4 h5 h6
    have hf : updater.fetchManifestPhase env (rb ++ "/contents/" ++ mp ++ "?ref=" ++ br) =
        (.error { status := "failed", updated_files := [],
                  errors := ["Failed to fetch manifest content from " ++ durl ++
                             " (HTTP " ++ toString mresp.status_code ++ ")"] },
         [rb ++ "/contents/" ++ mp ++ "?ref=" ++ br, durl]) := by
      unfold updater.fetchManifestPhase
      rw [h1]
      simp [h2, h3, h4, h5, h6, isHttpError]
    simp only [updater.update_files_from_github, hmk, hf]
  · intro env rb br ld st p fresp dl fd fdurl h1 h2 h3 h4 h5 hmk hwb
    constructor
    · unfold updater.stepOutcome updater.processFileStep
      simp [h1, h2, h3, h4, h5, hmk, hwb, logFetch]
    · unfold updater.processFileStep
      simp [h1, h2, h3, h4, h5, hmk, hwb, logFetch, writeFile]

/-- C2 counterexample: a per-file download hop answering HTTP 404 with body `[1,2,3]` is treated as successfully fetched content - the run returns `success` with no errors and writes those bytes - refuting the claim that every per-file second-hop non-success status yields a ContentFetchError. -/
theorem C2_counterexample :
    (updater.update_files_from_github envFile404Body "R" "m" "ld" "main" {}).fst =
      { status := "success", updated_files := ["f"], errors := [] } ∧
    lookupFile (updater.update_files_from_github envFile404Body "R" "m" "ld" "main" {}).snd
      (joinPath "ld" "f") = some (.raw [1, 2, 3]) ∧
    envFile404Body.net "df" = .ok (bresp 404 [1, 2, 3]) := by decide

/-- C2 witness: the amended theorem applied to a manifest second hop answering 500 (yielding the failed result naming `D` and 500) and to the 404-body per-file fetch (yielding a successful step). -/
theorem C2_witness :
    updater.update_files_from_github envSecondHop500 "R" "m" "ld" "main" {} =
      ({ status := "failed", updated_files := [],
         errors := ["Failed to fetch manifest content from D (HTTP 500)"] },
       { files := [], fetchLog := ["R/contents/m?ref=main", "D"] }) ∧
    updater.stepOutcome envFile404Body "R" "main" "ld" "f" = .ok "f" := by
  constructor
  · have h := C2_second_hop_amended.1 envSecondHop500 "R" "m" "ld" "main" {}
      (jresp 200 { download_url := some "D" }) (jresp 500 {})
      { download_url := some "D" } "D"
      (by decide) (by decide) (by decide) (by decide) (by decide) (by decide) (by decide)
    rw [h]
    decide
  · exact (C2_second_hop_amended.2 envFile404Body "R" "main" "ld" {} "f"
      (jresp 200 { download_url := some "df" }) (bresp 404 [1, 2, 3])
      { download_url := some "df" } "df"
      (by decide) (by decide) (by decide) (by decide) (by decide) (by decide) (by decide)).1

/-- C3: when the remote manifest resolves and the local manifest loads, a run with differing versions returns `success` iff `errors` is empty, `partial` iff `errors` and `updated_files` are both non-empty, and `failed` iff `errors` is non-empty and `updated_files` empty; with equal versions the run returns `no_update_needed` with empty lists, leaves the filesystem untouched, and fetches nothing beyond the two manifest hops. -/
theorem C3_outcome_classifier (env : Env) (rb mp ld br : String) (st : FsState)
    (c : JObj) (durl : String) (lm : JObj)
    (hmk : env.makedirs ld = .ok ())
    (hf : updater.fetchManifestPhase env (rb ++ "/contents/" ++ mp ++ "?ref=" ++ br) =
      (.ok c, [rb ++ "/contents/" ++ mp ++ "?ref=" ++ br, durl]))
    (hl : updater.load_local_manifest env st (joinPath ld mp) = .ok lm) :
    (c.version.getD "0.0.0" ≠ lm.version.getD "0.0.0" →
      (((updater.update_files_from_github env rb mp ld br st).fst.status = "success" ↔
         (updater.update_files_from_github env rb mp ld br st).fst.errors = []) ∧
       ((updater.update_files_from_github env rb mp ld br st).fst.status = "partial" ↔
         ((updater.update_files_from_github env rb mp ld br st).fst.errors ≠ [] ∧
          (updater.update_files_from_github env rb mp ld br st).fst.updated_files ≠ [])) ∧
       ((updater.update_files_from_github env rb mp ld br st).fst.status = "failed" ↔
         ((updater.update_files_from_github env rb mp ld br st).fst.errors ≠ [] ∧
          (updater.update_files_from_github env rb mp ld br st).fst.updated_files = [])))) ∧
    (c.version.getD "0.0.0" = lm.version.getD "0.0.0" →
      updater.update_files_from_github env rb mp ld br st =
        ({ status := "no_update_needed", updated_files := [], errors := [] },
         { st with fetchLog :=
            st.fetchLog ++ [rb ++ "/contents/" ++ mp ++ "?ref=" ++ br, durl] })) := by
  rw [run_eq env rb mp ld br st c durl lm hmk hf hl]
  by_cases hv : c.version.getD "0.0.0" = lm.version.getD "0.0.0"
  · constructor
    · intro h; exact absurd hv h
    · intro _; simp [hv]
  · constructor
    · intro _
      simp only [if_pos hv]
      rcases hp : updater.processFiles env rb br ld
          { st with fetchLog :=
             st.fetchLog ++ [rb ++ "/contents/" ++ mp ++ "?ref=" ++ br, durl] }
          (c.files.getD []) with ⟨ups, errs, st1⟩
      by_cases hc : ups ≠ [] ∧ errs = []
      · rw [if_pos hc]
        cases hw : env.writeJson (joinPath ld mp) with
        | error e =>
          simp only [mkFailed]
          refine ⟨?_, ?_, ?_⟩ <;> simp
        | ok _ =>
          simp only []
          exact ⟨by simp [classify_success], by simp [classify_partial_iff], by simp [classify_failed]⟩
      · rw [if_neg hc]
        exact ⟨by simp [classify_success], by simp [classify_partial_iff], by simp [classify_failed]⟩
    · intro h; exact absurd h hv

/-- C3 witness: the classifier equivalence instantiated on a successful one-file run. -/
theorem C3_witness :
    ((updater.update_files_from_github envOneFileOk "R" "m" "ld" "main" {}).fst.status
      = "success" ↔
    (updater.update_files_from_github envOneFileOk "R" "m" "ld" "main" {}).fst.errors = []) :=
  ((C3_outcome_classifier envOneFileOk "R" "m" "ld" "main" {}
    { download_url := none, version := some "1.0.0", files := some ["f"] } "D"
    { download_url := none, version := some "0.0.0", files := some [] }
    (by decide) (by decide) (by decide)).1 (by decide)).1

/-- C4 (amended): for a remote manifest listing `[a, b, k]` with differing versions where steps `a` and `k` succeed and step `b` fails with message `mB`, the run returns `partial` with `updated_files = [a, k]` in manifest order and `errors = [mB]`, and a failing step never aborts processing of the remaining files; the on-disk manifest is not overwritten provided neither successfully written path `a` nor `k` is the manifest path itself — when one of them is, the result fields are the same but the file-sync write overwrites the manifest file with raw bytes. -/
theorem C4_partial_isolation (env : Env) (rb mp ld br : String) (st : FsState)
    (mc lm : JObj) (durl a b k mB : String)
    (hmk : env.makedirs ld = .ok ())
    (hf : updater.fetchManifestPhase env (rb ++ "/contents/" ++ mp ++ "?ref=" ++ br) =
      (.ok mc, [rb ++ "/contents/" ++ mp ++ "?ref=" ++ br, durl]))
    (hl : updater.load_local_manifest env st (joinPath ld mp) = .ok lm)
    (hv : mc.version.getD "0.0.0" ≠ lm.version.getD "0.0.0")
    (hfiles : mc.files = some [a, b, k])
    (ha : updater.stepOutcome env rb br ld a = .ok a)
    (hb : updater.stepOutcome env rb br ld b = .error mB)
    (hk : updater.stepOutcome env rb br ld k = .ok k)
    (hna : joinPath ld a ≠ joinPath ld mp)
    (hnk : joinPath ld k ≠ joinPath ld mp) :
    (updater.update_files_from_github env rb mp ld br st).fst =
      { status := "partial", updated_files := [a, k], errors := [mB] } ∧
    lookupFile (updater.update_files_from_github env rb mp ld br st).snd (joinPath ld mp) =
      lookupFile st (joinPath ld mp) ∧
    (∀ (p m : String) (rest : List String) (st0 : FsState),
      updater.stepOutcome env rb br ld p = .error m →
      (updater.processFiles env rb br ld st0 (p :: rest)).fst =
        (updater.processFiles env rb br ld st0 rest).fst ∧
      (updater.processFiles env rb br ld st0 (p :: rest)).snd.fst =
        m :: (updater.processFiles env rb br ld st0 rest).snd.fst) := by
  rw [run_eq env rb mp ld br st mc durl lm hmk hf hl]
  have hups : ∀ st0 : FsState, (updater.processFiles env rb br ld st0 [a, b, k]).fst
      = [a, k] := by
    intro st0
    rw [processFiles_updated]
    simp [List.filter_cons, stepOk, ha, hb, hk]
  have herrs : ∀ st0 : FsState, (updater.processFiles env rb br ld st0 [a, b, k]).snd.fst
      = [mB] := by
    intro st0
    rw [processFiles_errors]
    simp [List.filterMap_cons, stepErr, ha, hb, hk]
  simp only [if_pos hv, hfiles, Option.getD_some]
  refine ⟨?_, ?_, ?_⟩
  · simp [hups, herrs, updater.classify]
  · have hnm : ∀ p ∈ [a, b, k], stepOk env rb br ld p = true →
        joinPath ld p ≠ joinPath ld mp := by
      intro p hp hok
      rcases List.mem_cons.mp hp with rfl | hp
      · exact hna
      rcases List.mem_cons.mp hp with rfl | hp
      · exfalso
        simp [stepOk, hb] at hok
      rcases List.mem_cons.mp hp with rfl | hp
      · exact hnk
      · cases hp
    simp only [hups, herrs]
    rw [if_neg (by simp)]
    simp only []
    rw [processFiles_lookup_ok_notmem env rb br ld [a, b, k] _ (joinPath ld mp) hnm]
    exact lookupFile_files_congr _ _ _ rfl
  · intro p m rest st0 h
    exact processFiles_error_cons env rb br ld p rest st0 m h

/-- C4 counterexample: with files `[m, b, c]` where `m` is the manifest path itself, `b` fails and `m`, `c` succeed, the run returns exactly the claimed `partial` / `[m, c]` / one-error result, yet the on-disk file at the manifest path has been overwritten by the file-sync step — refuting the claim's assertion that the local manifest is not overwritten in this scenario. -/
theorem C4_counterexample :
    (updater.update_files_from_github envABCSelf "R" "m" "ld" "main" {}).fst =
      { status := "partial", updated_files := ["m", "c"],
        errors := ["Failed to fetch file b from R/contents/b?ref=main (HTTP 404)"] } ∧
    lookupFile (updater.update_files_from_github envABCSelf "R" "m" "ld" "main" {}).snd
      (joinPath "ld" "m") ≠ lookupFile ({} : FsState) (joinPath "ld" "m") := by decide

/-- C4 witness: the amended scenario instantiated on a concrete environment where `b` answers HTTP 404 and neither `a` nor `c` is the manifest path. -/
theorem C4_witness :
    (updater.update_files_from_github envABC "R" "m" "ld" "main" {}).fst =
      { status := "partial", updated_files := ["a", "c"],
        errors := ["Failed to fetch file b from R/contents/b?ref=main (HTTP 404)"] } :=
  (C4_partial_isolation envABC "R" "m" "ld" "main" {}
    { download_url := none, version := some "1.0.0", files := some ["a", "b", "c"] }
    { download_url := none, version := some "0.0.0", files := some [] }
    "D" "a" "b" "c" "Failed to fetch file b from R/contents/b?ref=main (HTTP 404)"
    (by decide) (by decide) (by decide) (by decide) (by decide) (by decide) (by decide)
    (by decide) (by decide) (by decide)).1

/-- C5: with the manifest resolved and the local manifest loaded, the run returns `no_update_needed` iff the remote and local version strings are equal (any difference, including a lexicographically lower remote version, proceeds), `check_updates_available` computes `update_available` by the same string comparison, and an absent local manifest file means local version `0.0.0`. -/
theorem C5_version_gate (env : Env) (rb mp ld br : String) (st : FsState)
    (resp mresp : HttpResponse) (md c lm : JObj) (durl : String)
    (hmk : env.makedirs ld = .ok ())
    (h1 : env.net (rb ++ "/contents/" ++ mp ++ "?ref=" ++ br) = .ok resp)
    (h2 : resp.status_code = 200)
    (h3 : resp.jsonResult = .ok md) (h4 : md.download_url = some durl)
    (h5 : env.net durl = .ok mresp) (h6 : mresp.status_code = 200)
    (h7 : mresp.jsonResult = .ok c)
    (hl : updater.load_local_manifest env st (joinPath ld mp) = .ok lm) :
    ((updater.update_files_from_github env rb mp ld br st).fst.status = "no_update_needed" ↔
       c.version.getD "0.0.0" = lm.version.getD "0.0.0") ∧
    ((updater.check_updates_available env rb mp ld br st).update_available = true ↔
       c.version.getD "0.0.0" ≠ lm.version.getD "0.0.0") ∧
    (lookupFile st (joinPath ld mp) = none → lm.version.getD "0.0.0" = "0.0.0") := by
  have hf := fetchManifestPhase_eq_ok env (rb ++ "/contents/" ++ mp ++ "?ref=" ++ br)
    resp mresp md c durl h1 h2 h3 h4 h5 h6 h7
  obtain ⟨lmc, hlc, hvv⟩ := load_check_version env st (joinPath ld mp) lm hl
  refine ⟨?_, ?_, ?_⟩
  · rw [run_eq env rb mp ld br st c durl lm hmk hf hl]
    by_cases hv : c.version.getD "0.0.0" = lm.version.getD "0.0.0"
    · simp [hv]
    · simp only [if_pos hv]
      rcases hp : updater.processFiles env rb br ld
          { st with fetchLog :=
             st.fetchLog ++ [rb ++ "/contents/" ++ mp ++ "?ref=" ++ br, durl] }
          (c.files.getD []) with ⟨ups, errs, st1⟩
      constructor
      · intro habs
        exfalso
        by_cases hc : ups ≠ [] ∧ errs = []
        · rw [if_pos hc] at habs
          cases hw : env.writeJson (joinPath ld mp) <;> rw [hw] at habs
          · exact absurd habs (by simp [mkFailed])
          · exact classify_ne_noupdate ups errs habs
        · rw [if_neg hc] at habs
          exact classify_ne_noupdate ups errs habs
      · intro h; exact absurd h hv
  · rw [check_eq env rb mp ld br st resp mresp md c lmc durl hmk h1 h2 h3 h4 h5 h6 h7 hlc]
    simp [hvv]
  · intro hnone
    unfold updater.load_local_manifest at hl
    simp only [hnone, Except.ok.injEq] at hl
    subst hl
    rfl

/-- C5 witness: `check_updates_available` reports an update for remote version `1.0.0` against an absent local manifest. -/
theorem C5_witness :
    (updater.check_updates_available envOneFileOk "R" "m" "ld" "main" {}).update_available
      = true :=
  ((C5_version_gate envOneFileOk "R" "m" "ld" "main" {}
    (jresp 200 { download_url := some "D" })
    (jresp 200 { version := some "1.0.0", files := some ["f"] })
    { download_url := some "D" }
    { download_url := none, version := some "1.0.0", files := some ["f"] }
    { download_url := none, version := some "0.0.0", files := some [] } "D"
    (by decide) (by decide) (by decide) (by decide) (by decide) (by decide) (by decide)
    (by decide) (by decide)).2.1).mpr (by decide)

/-- C6 (amended): loading the local manifest yields the default `{version: 0.0.0, files: []}` only when the file is absent; when the file is present but unparsable the exception aborts the whole run as a top-level failure with status `failed` and a single error, rather than proceeding through the version gate. -/
theorem C6_load_default_amended :
    (∀ (env : Env) (st : FsState) (p : String), lookupFile st p = none →
      updater.load_local_manifest env st p =
        .ok { download_url := none, version := some "0.0.0", files := some [] }) ∧
    (∀ (env : Env) (rb mp ld br : String) (st : FsState) (c : JObj) (durl : String)
        (bs : List Nat) (e : String),
      env.makedirs ld = .ok () →
      updater.fetchManifestPhase env (rb ++ "/contents/" ++ mp ++ "?ref=" ++ br) =
        (.ok c, [rb ++ "/contents/" ++ mp ++ "?ref=" ++ br, durl]) →
      lookupFile st (joinPath ld mp) = some (FileData.raw bs) →
      env.json_loads bs = .error e →
      updater.update_files_from_github env rb mp ld br st =
        (mkFailed ("Update failed: " ++ e),
         { st with fetchLog :=
            st.fetchLog ++ [rb ++ "/contents/" ++ mp ++ "?ref=" ++ br, durl] })) := by
  constructor
  · intro env st p h
    unfold updater.load_local_manifest
    simp [h]
  · intro env rb mp ld br st c durl bs e hmk hf hlook hparse
    have hl : updater.load_local_manifest env st (joinPath ld mp) = .error e := by
      unfold updater.load_local_manifest
      simp [hlook, hparse]
    have hl0 : updater.load_local_manifest env
        { st with fetchLog :=
           st.fetchLog ++ [rb ++ "/contents/" ++ mp ++ "?ref=" ++ br, durl] }
        (joinPath ld mp) = .error e :=
      (load_local_manifest_congr env _ st (joinPath ld mp) rfl).trans hl
    simp only [updater.update_files_from_github, hmk, hf, hl0]

/-- C6 counterexample: with the local manifest present but malformed, the run returns `failed` with one top-level error instead of using the default and proceeding through the version gate, refuting the claim that an unreadable manifest is defaulted. -/
theorem C6_counterexample :
    (updater.update_files_from_github envEmptyFiles "R" "m" "ld" "main"
      { files := [("ld/m", FileData.raw [0])] }).fst =
      { status := "failed", updated_files := [],
        errors := ["Update failed: Expecting value"] } ∧
    updater.load_local_manifest envEmptyFiles { files := [("ld/m", FileData.raw [0])] }
      (joinPath "ld" "m") ≠
      .ok { download_url := none, version := some "0.0.0", files := some [] } := by decide

/-- C6 witness: the amended theorem applied to an absent local manifest (default returned) and to a malformed one (run aborts with `failed`). -/
theorem C6_witness :
    updater.load_local_manifest envEmptyFiles {} (joinPath "ld" "m") =
      .ok { download_url := none, version := some "0.0.0", files := some [] } ∧
    (updater.update_files_from_github envEmptyFiles "R" "m" "ld" "main"
      { files := [("ld/m", FileData.raw [0])] }).fst.status = "failed" := by
  constructor
  · exact C6_load_default_amended.1 envEmptyFiles {} (joinPath "ld" "m") (by decide)
  · have h := C6_load_default_amended.2 envEmptyFiles "R" "m" "ld" "main"
      { files := [("ld/m", FileData.raw [0])] }
      { download_url := none, version := some "1.0.0", files := some [] } "D" [0]
      "Expecting value" (by decide) (by decide) (by decide) (by decide)
    rw [h]
    rfl

/-- C7 (amended): if a run of `update_files_from_github` returns `success` with at least one updated file (so the local manifest was persisted), running it again against the unchanged environment returns `no_update_needed`. -/
theorem C7_idempotence_amended (env : Env) (rb mp ld br : String) (st : FsState)
    (hs : (updater.update_files_from_github env rb mp ld br st).fst.status = "success")
    (hu : (updater.update_files_from_github env rb mp ld br st).fst.updated_files ≠ []) :
    (updater.update_files_from_github env rb mp ld br
      (updater.update_files_from_github env rb mp ld br st).snd).fst.status
      = "no_update_needed" := by
  cases hmk : env.makedirs ld with
  | error e =>
    have hrun : updater.update_files_from_github env rb mp ld br st =
        (mkFailed ("Update failed: " ++ e), st) := by
      simp only [updater.update_files_from_github, hmk]
    rw [hrun] at hs
    simp [mkFailed] at hs
  | ok u =>
    cases u
    rcases fetchManifestPhase_cases env (rb ++ "/contents/" ++ mp ++ "?ref=" ++ br) with
      ⟨msg, urls, hfe⟩ | ⟨c, durl, hfo⟩
    · have hrun : (updater.update_files_from_github env rb mp ld br st).fst =
          { status := "failed", updated_files := [], errors := [msg] } := by
        simp only [updater.update_files_from_github, hmk, hfe]
      rw [hrun] at hs
      simp at hs
    · cases hlr : updater.load_local_manifest env st (joinPath ld mp) with
      | error e =>
        have hl0 : updater.load_local_manifest env
            { st with fetchLog :=
               st.fetchLog ++ [rb ++ "/contents/" ++ mp ++ "?ref=" ++ br, durl] }
            (joinPath ld mp) = .error e :=
          (load_local_manifest_congr env _ st (joinPath ld mp) rfl).trans hlr
        have hrun : (updater.update_files_from_github env rb mp ld br st).fst =
            mkFailed ("Update failed: " ++ e) := by
          simp only [updater.update_files_from_github, hmk, hfo, hl0]
        rw [hrun] at hs
        simp [mkFailed] at hs
      | ok lm =>
        have E := run_eq env rb mp ld br st c durl lm hmk hfo hlr
        rw [E] at hs hu ⊢
        by_cases hv : c.version.getD "0.0.0" = lm.version.getD "0.0.0"
        · simp [hv] at hs
        · simp only [if_pos hv] at hs hu ⊢
          rcases hp : updater.processFiles env rb br ld
              { st with fetchLog :=
                 st.fetchLog ++ [rb ++ "/contents/" ++ mp ++ "?ref=" ++ br, durl] }
              (c.files.getD []) with ⟨ups, errs, st1⟩
          simp only [hp] at hs hu ⊢
          by_cases hc : ups ≠ [] ∧ errs = []
          · simp only [if_pos hc] at hs hu ⊢
            cases hw : env.writeJson (joinPath ld mp) with
            | error e =>
              simp only [hw, mkFailed] at hs
              simp at hs
            | ok u2 =>
              cases u2
              simp only [hw] at hs hu ⊢
              have hl2 : updater.load_local_manifest env
                  (writeFile st1 (joinPath ld mp) (FileData.jsonData c))
                  (joinPath ld mp) = .ok c := by
                unfold updater.load_local_manifest
                rw [show lookupFile (writeFile st1 (joinPath ld mp) (FileData.jsonData c))
                    (joinPath ld mp) = some (FileData.jsonData c) by
                  rw [lookupFile_writeFile]; simp]
              rw [run_eq env rb mp ld br _ c durl c hmk hfo hl2]
              simp
          · simp only [if_neg hc] at hs hu
            exfalso
            exact hc ⟨hu, (classify_success ups errs).mp hs⟩

/-- C7 counterexample: with a remote manifest whose file list is empty and whose version differs from the local one, the first run returns `success` without persisting the manifest, so the second run returns `success` again - not `no_update_needed` - refuting idempotence for every initial state. -/
theorem C7_counterexample :
    (updater.update_files_from_github envEmptyFiles "R" "m" "ld" "main"
      (updater.update_files_from_github envEmptyFiles "R" "m" "ld" "main" {}).snd).fst.status
      = "success" := by decide

/-- C7 witness: after a successful one-file run, the second run returns `no_update_needed`. -/
theorem C7_witness :
    (updater.update_files_from_github envOneFileOk "R" "m" "ld" "main"
      (updater.update_files_from_github envOneFileOk "R" "m" "ld" "main" {}).snd).fst.status
      = "no_update_needed" :=
  C7_idempotence_amended envOneFileOk "R" "m" "ld" "main" {} (by decide) (by decide)

/-- C8 (amended): under the time-varying transport model — where repeated requests to the same URL may answer differently, as with real `requests.get` — the plain per-file loop is the erasure of the provenance-tagged one, and no path both enters `updated_files` and has an error recorded for it provided the manifest's file list names each path at most once; for lists that repeat a path the guarantee holds only when the environment answers each URL and path identically throughout the run (the time-invariant model). -/
theorem C8_no_overlap_amended :
    (∀ (envT : EnvT) (rb br ld : String) (t : Nat) (st : FsState) (ps : List String),
      updater.processFilesT envT rb br ld t st ps =
        ((updater.processFilesTaggedT envT rb br ld t st ps).fst,
         (updater.processFilesTaggedT envT rb br ld t st ps).snd.fst.map Prod.snd,
         (updater.processFilesTaggedT envT rb br ld t st ps).snd.snd)) ∧
    (∀ (envT : EnvT) (rb br ld : String) (t : Nat) (st : FsState) (ps : List String),
      ps.Nodup →
      ∀ p, p ∈ (updater.processFilesTaggedT envT rb br ld t st ps).fst →
        ∀ m, (p, m) ∉ (updater.processFilesTaggedT envT rb br ld t st ps).snd.fst) ∧
    (∀ (env : Env) (rb br ld : String) (st : FsState) (ps : List String),
      ∀ p, p ∈ (updater.processFilesTagged env rb br ld st ps).fst →
        ∀ m, (p, m) ∉ (updater.processFilesTagged env rb br ld st ps).snd.fst) := by
  refine ⟨processFilesT_erase, taggedT_nodup_no_overlap, ?_⟩
  intro env rb br ld st ps
  rw [processFilesTagged_spec]
  intro p hp m hm
  rw [processFiles_updated] at hp
  have hok : stepOk env rb br ld p = true := (List.mem_filter.mp hp).2
  rcases List.mem_filterMap.mp hm with ⟨q, hq, hmap⟩
  rcases Option.map_eq_some'.mp hmap with ⟨m0, hm0, hpair⟩
  injection hpair with hq1 hq2
  subst hq1
  rw [stepOk_none_stepErr env rb br ld q hok] at hm0
  cases hm0

/-- C8 counterexample: with the file list `[p, p]` and a transport that serves the first resolution of `p` and then raises a transient connection error, the run puts `p` in `updated_files` and also records an error for `p` in `errors` — refuting the claim that no such overlap can occur even when the file list repeats a path. -/
theorem C8_counterexample :
    (updater.processFilesT envT8 "R" "main" "ld" 0 {} ["p", "p"]).fst = ["p"] ∧
    (updater.processFilesT envT8 "R" "main" "ld" 0 {} ["p", "p"]).snd.fst =
      ["Failed to update p: Connection aborted"] ∧
    ("p", "Failed to update p: Connection aborted") ∈
      (updater.processFilesTaggedT envT8 "R" "main" "ld" 0 {} ["p", "p"]).snd.fst := by
  decide

/-- C8 witness: the amended theorem applied to a duplicate-free list under the time-varying transport and to the `[a, b, c]` run under the stable one. -/
theorem C8_witness :
    (∀ m, ("p", m) ∉
      (updater.processFilesTaggedT envT8 "R" "main" "ld" 0 {} ["p"]).snd.fst) ∧
    (∀ m, ("a", m) ∉
      (updater.processFilesTagged envABC "R" "main" "ld" {} ["a", "b", "c"]).snd.fst) :=
  ⟨fun m => C8_no_overlap_amended.2.1 envT8 "R" "main" "ld" 0 {} ["p"] (by decide)
     "p" (by decide) m,
   fun m => C8_no_overlap_amended.2.2 envABC "R" "main" "ld" {} ["a", "b", "c"]
     "a" (by decide) m⟩

/-- C9: on every input both entry points return a complete structured result - the status is always one of the four codes, a `partial` or `failed` status comes with a non-empty `errors` list, a successful availability check carries no errors, and an availability check without a remote version carries at least one error. -/
theorem C9_total_structured (env : Env) (rb mp ld br : String) (st : FsState) :
    ((updater.update_files_from_github env rb mp ld br st).fst.status = "success" ∨
     (updater.update_files_from_github env rb mp ld br st).fst.status = "partial" ∨
     (updater.update_files_from_github env rb mp ld br st).fst.status = "failed" ∨
     (updater.update_files_from_github env rb mp ld br st).fst.status = "no_update_needed") ∧
    (((updater.update_files_from_github env rb mp ld br st).fst.status = "partial" ∨
      (updater.update_files_from_github env rb mp ld br st).fst.status = "failed") →
      (updater.update_files_from_github env rb mp ld br st).fst.errors ≠ []) ∧
    ((updater.check_updates_available env rb mp ld br st).update_available = true →
      (updater.check_updates_available env rb mp ld br st).errors = []) ∧
    ((updater.check_updates_available env rb mp ld br st).remote_version = none →
      (updater.check_updates_available env rb mp ld br st).errors ≠ []) := by
  have hrc := run_result_cases env rb mp ld br st
  have hchk : ((updater.check_updates_available env rb mp ld br st).update_available = true →
      (updater.check_updates_available env rb mp ld br st).errors = []) ∧
      ((updater.check_updates_available env rb mp ld br st).remote_version = none →
      (updater.check_updates_available env rb mp ld br st).errors ≠ []) := by
    unfold updater.check_updates_available
    cases hmk : env.makedirs ld <;> simp only [hmk]
    · simp
    · cases hn : env.net (rb ++ "/contents/" ++ mp ++ "?ref=" ++ br) <;> simp only [hn]
      · simp
      · split
        · simp
        · split
          · simp
          · split
            · simp
            · rename_i resp h404 h403 hhe
              cases hj : resp.jsonResult <;> simp only [hj]
              · simp
              · rename_i md
                cases hd : md.download_url <;> simp only [hd]
                · simp
                · rename_i durl
                  cases hn2 : env.net durl <;> simp only [hn2]
                  · simp
                  · rename_i mresp
                    split
                    · simp
                    · cases hj2 : mresp.jsonResult <;> simp only [hj2]
                      · simp
                      · cases hlc : updater.load_local_manifest_check env st
                            (joinPath ld mp) <;> simp only [hlc]
                        · simp
                        · simp
  refine ⟨?_, ?_, hchk.1, hchk.2⟩
  · rcases hrc with ⟨m, h⟩ | h | ⟨ups, errs, h⟩ <;> rw [h]
    · simp
    · simp
    · rcases classify_mem ups errs with h2 | h2 | h2 <;> simp [h2]
  · rcases hrc with ⟨m, h⟩ | h | ⟨ups, errs, h⟩ <;> rw [h]
    · simp
    · simp
    · intro hst
      rcases hst with h2 | h2
      · exact ((classify_partial_iff ups errs).mp h2).1
      · exact ((classify_failed ups errs).mp h2).1

/-- C9 witness: the partial `[a, b, c]` run has a non-empty `errors` list. -/
theorem C9_witness :
    (updater.update_files_from_github envABC "R" "m" "ld" "main" {}).fst.errors ≠ [] :=
  (C9_total_structured envABC "R" "m" "ld" "main" {}).2.1 (Or.inl (by decide))

/-- C10 (amended): the older `Updater.py` engine and the newer `updater.py` engine return the same status and `updated_files` and leave identical files on disk whenever every remote response has status 200 or an HTTP-error status in [400, 600) and every non-200 response has a body that fails JSON parsing; their error-message strings may differ. -/
theorem C10_refinement_amended (env : Env) (rb mp ld br : String) (st : FsState)
    (H1 : ∀ url resp, env.net url = .ok resp →
      resp.status_code = 200 ∨ (400 ≤ resp.status_code ∧ resp.status_code < 600))
    (H2 : ∀ url resp, env.net url = .ok resp → resp.status_code ≠ 200 →
      ∃ e, resp.jsonResult = .error e) :
    (Updater.update_files_from_github env rb mp ld br st).fst.status =
      (updater.update_files_from_github env rb mp ld br st).fst.status ∧
    (Updater.update_files_from_github env rb mp ld br st).fst.updated_files =
      (updater.update_files_from_github env rb mp ld br st).fst.updated_files ∧
    (Updater.update_files_from_github env rb mp ld br st).snd.files =
      (updater.update_files_from_github env rb mp ld br st).snd.files := by
  cases hmk : env.makedirs ld with
  | error e =>
    simp only [Updater.update_files_from_github, updater.update_files_from_github, hmk]
    refine ⟨?_, ?_, ?_⟩ <;> first | rfl | trivial
  | ok u =>
    cases u
    rcases fetch_equiv env H1 H2 (rb ++ "/contents/" ++ mp ++ "?ref=" ++ br) with
      ⟨c, uo, un, hfo, hfn⟩ | ⟨r1, r2, uo, un, hfo, hfn, hs1, hs2, hu1, hu2⟩
    · cases hlr : updater.load_local_manifest env st (joinPath ld mp) with
      | error e =>
        have hl0o : updater.load_local_manifest env
            { st with fetchLog := st.fetchLog ++ uo } (joinPath ld mp) = .error e :=
          (load_local_manifest_congr env _ st (joinPath ld mp) rfl).trans hlr
        have hl0n : updater.load_local_manifest env
            { st with fetchLog := st.fetchLog ++ un } (joinPath ld mp) = .error e :=
          (load_local_manifest_congr env _ st (joinPath ld mp) rfl).trans hlr
        simp only [Updater.update_files_from_github, updater.update_files_from_github,
          hmk, hfo, hfn, hl0o, hl0n]
        refine ⟨?_, ?_, ?_⟩ <;> first | rfl | trivial
      | ok lm =>
        have hl0o : updater.load_local_manifest env
            { st with fetchLog := st.fetchLog ++ uo } (joinPath ld mp) = .ok lm :=
          (load_local_manifest_congr env _ st (joinPath ld mp) rfl).trans hlr
        have hl0n : updater.load_local_manifest env
            { st with fetchLog := st.fetchLog ++ un } (joinPath ld mp) = .ok lm :=
          (load_local_manifest_congr env _ st (joinPath ld mp) rfl).trans hlr
        simp only [Updater.update_files_from_github, updater.update_files_from_github,
          hmk, hfo, hfn, hl0o, hl0n]
        by_cases hv : c.version.getD "0.0.0" = lm.version.getD "0.0.0"
        · simp only [if_neg (not_not_intro hv)]
          refine ⟨?_, ?_, ?_⟩ <;> first | rfl | trivial
        · simp only [if_pos hv]
          obtain ⟨hups, herrs, hfiles⟩ := processFiles_equiv env H1 rb br ld
            (c.files.getD [])
            { st with fetchLog := st.fetchLog ++ uo }
            { st with fetchLog := st.fetchLog ++ un } rfl
          rcases hpo : Updater.processFiles env rb br ld
              { st with fetchLog := st.fetchLog ++ uo } (c.files.getD []) with
            ⟨upsO, errsO, stO⟩
          rcases hpn : updater.processFiles env rb br ld
              { st with fetchLog := st.fetchLog ++ un } (c.files.getD []) with
            ⟨upsN, errsN, stN⟩
          rw [hpo, hpn] at hups herrs hfiles
          by_cases hcond : upsN ≠ [] ∧ errsN = []
          · have hcondO : upsO ≠ [] ∧ errsO = [] := by
              constructor
              · rw [show upsO = upsN from hups]; exact hcond.1
              · exact herrs.mpr hcond.2
            simp only [if_pos hcondO, if_pos hcond]
            cases hw : env.writeJson (joinPath ld mp) <;> simp only [hw]
            · refine ⟨?_, ?_, ?_⟩ <;> first | rfl | trivial
            · refine ⟨classify_congr _ _ _ _ hups herrs, hups, ?_⟩
              simp only [writeFile]
              rw [show stO.files = stN.files from hfiles]
          · have hcondO : ¬(upsO ≠ [] ∧ errsO = []) := by
              intro hx
              refine hcond ⟨?_, herrs.mp hx.2⟩
              rw [show upsN = upsO from hups.symm]; exact hx.1
            simp only [if_neg hcondO, if_neg hcond]
            exact ⟨classify_congr _ _ _ _ hups herrs, hups, hfiles⟩
    · simp only [Updater.update_files_from_github, updater.update_files_from_github,
        hmk, hfo, hfn]
      refine ⟨?_, ?_, ?_⟩ <;>
        first
          | rfl | trivial
          | exact hs1.trans hs2.symm
          | exact hu1.trans hu2.symm

/-- C10 counterexample: when the manifest download hop answers HTTP 500 with a body that parses as JSON, the old engine ignores the status and reports `no_update_needed` while the new engine reports `failed`, refuting unconditional equivalence. -/
theorem C10_counterexample :
    (Updater.update_files_from_github envSecondHop500 "R" "m" "ld" "main" {}).fst.status
      = "no_update_needed" ∧
    (updater.update_files_from_github envSecondHop500 "R" "m" "ld" "main" {}).fst.status
      = "failed" := by decide

/-- C10 witness: on the `[a, b, c]` environment - whose responses are all 200 or 404 with non-JSON error bodies - both engines return the same status. -/
theorem C10_witness :
    (Updater.update_files_from_github envABC "R" "m" "ld" "main" {}).fst.status =
      (updater.update_files_from_github envABC "R" "m" "ld" "main" {}).fst.status := by
  have H1 : ∀ url resp, envABC.net url = .ok resp →
      resp.status_code = 200 ∨ (400 ≤ resp.status_code ∧ resp.status_code < 600) := by
    intro url resp h
    obtain ⟨kv, hkv, hr⟩ := mkEnv_net_ok _ _ url resp h
    subst hr
    fin_cases hkv <;> decide
  have H2 : ∀ url resp, envABC.net url = .ok resp → resp.status_code ≠ 200 →
      ∃ e, resp.jsonResult = .error e := by
    intro url resp h hne
    obtain ⟨kv, hkv, hr⟩ := mkEnv_net_ok _ _ url resp h
    subst hr
    fin_cases hkv <;>
      first
        | exact absurd rfl hne
        | exact ⟨"Expecting value", rfl⟩
  exact (C10_refinement_amended envABC "R" "m" "ld" "main" {} H1 H2).1

end RemoteUpdate
